import Mathlib

/-!
# feed-notifier: the fetch / dedup core

A shallow embedding of `internal/service` and `internal/db` of feed-notifier.

* Go strings are `String`; the text functions of the Go standard library that
  `parseMaxAge` uses work on the character list of the string.
* `int64` values are `Int`; every arithmetic operation of the source that can
  leave the 64-bit range is wrapped with `wrapInt64`.
* The SQLite tables are lists of rows; `GetFeed`, `UpdateFeed`, `IsArticleNew`
  and `LogArticle` are the four statements of `internal/db/utils.go`.
* The notifier and the HTTP client are the outside world: a notifier is a
  function that decides, from everything that happened so far, whether a
  `Notify` call succeeds; the HTTP client maps the request to a response or to
  a transport error.
* A `State` carries the database and a ghost trace of the `Notify` and
  `LogArticle` calls made so far.
* The work on one feed is sequential in the source; in the theorems about the
  ledger the goroutines of different feeds are not interleaved: passes run one
  after the other.
* The goroutines of `Start`, `Stop`, `processAllFeeds` and the feed workers are
  modelled apart, by a step function over their single moves; there a worker
  is only counted, what it does to the database is not tracked.
* `internal/config` is embedded from `Validate` on: reading and decoding the
  file is the outside world, and so is the decoding of the settings map of a
  notifier by the koanf library, a parameter of `Validate`.
* A database error ends the process (`log.Fatalf`) and is not modelled.
-/

namespace config

/-- The `Feed` struct of `internal/config/config.go`. -/
structure Feed where
  ID : String
  URL : String
  DisplayName : String
  Interval : Int
  Notifier : String
deriving DecidableEq, Repr

end config

namespace gofeed

/-- The fields of `gofeed.Item` that the service reads. -/
structure Item where
  GUID : String
  Link : String
  Title : String
deriving DecidableEq, Repr

end gofeed

namespace db

/-- The `Feed` struct of `internal/db/db.go`: one row of table `feeds`. -/
structure Feed where
  FeedID : String
  ETag : String
  LastModified : String
  MaxAge : Int
  LastChecked : Int
deriving DecidableEq, Repr

/-- The `Article` struct of `internal/db/db.go`: one row of table `articles`. -/
structure Article where
  FeedID : String
  ArticleID : String
deriving DecidableEq, Repr

/-- The database: the rows of table `feeds` and of table `articles`, in
insertion order. -/
structure DB where
  feeds : List Feed
  articles : List Article
deriving DecidableEq, Repr

/-- Method `GetFeed`: `SELECT ... FROM feeds WHERE feed_id = ?`; `none` is the nil
pointer returned on `sql.ErrNoRows`. -/
def DB.GetFeed (d : DB) (feedID : String) : Option Feed :=
  d.feeds.find? (fun row => row.FeedID == feedID)

/-- Method `UpdateFeed`: `INSERT ... ON CONFLICT(feed_id) DO UPDATE SET ...`: the row
of that feed id is overwritten, or the row is inserted when there is none. -/
def DB.UpdateFeed (d : DB) (metadata : Feed) : DB :=
  if d.feeds.any (fun row => row.FeedID == metadata.FeedID) then
    { d with
      feeds := d.feeds.map (fun row => if row.FeedID == metadata.FeedID then metadata else row) }
  else
    { d with feeds := d.feeds ++ [metadata] }

/-- Method `IsArticleNew`: `SELECT 1 FROM articles WHERE feed_id = ? AND article_id = ?`
finds no row. -/
def DB.IsArticleNew (d : DB) (feedID articleID : String) : Bool :=
  !(d.articles.contains ⟨feedID, articleID⟩)

/-- Method `LogArticle`: `INSERT OR IGNORE INTO articles (feed_id, article_id)`; the
primary key `(feed_id, article_id)` makes the insert a no-op on an existing
pair. -/
def DB.LogArticle (d : DB) (feedID articleID : String) : DB :=
  if d.articles.contains ⟨feedID, articleID⟩ then d
  else { d with articles := d.articles ++ [⟨feedID, articleID⟩] }

end db

namespace service

/-- One observable call of the article processor. -/
inductive Event where
  /-- A call `notifierInstance.Notify(feed, item)` for the article identity,
  with whether it returned a nil error. -/
  | notify (feedID articleID : String) (ok : Bool)
  /-- A call `s.db.LogArticle(feedID, articleID)`. -/
  | logArticle (feedID articleID : String)
deriving DecidableEq, Repr

/-- A notifier (`notifier.Notifier`): given the calls made so far, the feed
and the item, whether `Notify` returns a nil error. -/
abbrev Notifier := List Event → config.Feed → gofeed.Item → Bool

/-- The parts of `Service` that the article processor reads. -/
structure Service where
  /-- The `notifierMap` field, as the list of its key/value pairs. -/
  notifierMap : List (String × Notifier)

/-- The mutable world of the service: the database, the ghost trace of calls,
and whether the process has died on a nil notifier. -/
structure State where
  db : db.DB
  trace : List Event
  crashed : Bool
deriving DecidableEq, Repr

/-- Method `getNotifierForFeed`: the map lookup `s.notifierMap[feed.Notifier]`; `none`
is the nil interface value of a missing key. -/
def getNotifierForFeed (s : Service) (feed : config.Feed) : Option Notifier :=
  s.notifierMap.lookup feed.Notifier

/-- Method `getArticleID` of `internal/service/utils.go`. -/
def getArticleID (item : gofeed.Item) : String :=
  if item.GUID ≠ "" then item.GUID
  else if item.Link ≠ "" then item.Link
  else if item.Title ≠ "" then item.Title
  else ""

/-- The `for _, item := range items` loop of `logItems`. -/
def logItems (feed : config.Feed) : List gofeed.Item → State → State
  | [], st => st
  | item :: rest, st =>
    let articleID := getArticleID item
    if articleID = "" then
      logItems feed rest st
    else
      logItems feed rest
        { st with
          db := st.db.LogArticle feed.ID articleID
          trace := st.trace ++ [Event.logArticle feed.ID articleID] }

/-- The `for _, item := range articles` loop of `processArticles`, for the
notifier instance that `getNotifierForFeed` returned. Calling `Notify` on the
nil instance is a nil dereference: the process dies there. -/
def processArticlesLoop (notifierInstance : Option Notifier) (feed : config.Feed) :
    List gofeed.Item → State → State
  | [], st => st
  | item :: rest, st =>
    let articleID := getArticleID item
    if articleID = "" then
      processArticlesLoop notifierInstance feed rest st
    else if st.db.IsArticleNew feed.ID articleID then
      match notifierInstance with
      | none => { st with crashed := true }
      | some n =>
        if n st.trace feed item then
          processArticlesLoop notifierInstance feed rest
            { st with
              db := st.db.LogArticle feed.ID articleID
              trace := st.trace ++
                  [Event.notify feed.ID articleID true, Event.logArticle feed.ID articleID] }
        else
          processArticlesLoop notifierInstance feed rest
            { st with trace := st.trace ++ [Event.notify feed.ID articleID false] }
    else
      processArticlesLoop notifierInstance feed rest st

/-- The errors `fetchFeed` returns. -/
inductive FetchError where
  /-- The text "failed to create request". -/
  | createRequest
  /-- The text "HTTP request failed". -/
  | requestFailed
  /-- The text "failed to parse feed". -/
  | parseFailed
  /-- The text "unexpected status code: %d". -/
  | unexpectedStatus (code : Int)
deriving DecidableEq, Repr

/-- Method `processArticles`: the returned error (always nil) and the state after the
loop. -/
def processArticles (s : Service) (feed : config.Feed) (articles : List gofeed.Item)
    (st : State) : Option FetchError × State :=
  (none, processArticlesLoop (getNotifierForFeed s feed) feed articles st)


/-! ## The Go standard library functions used by `parseMaxAge` -/

/-- Go `unicode.IsSpace`: the Latin-1 space characters and the code points of
the Unicode White_Space property. -/
def unicodeIsSpace (c : Char) : Bool :=
  let n := c.toNat
  n == 0x09 || n == 0x0A || n == 0x0B || n == 0x0C || n == 0x0D || n == 0x20 ||
  n == 0x85 || n == 0xA0 || n == 0x1680 || (0x2000 ≤ n && n ≤ 0x200A) ||
  n == 0x2028 || n == 0x2029 || n == 0x202F || n == 0x205F || n == 0x3000

/-- Go `strings.TrimSpace`: the string without its leading and trailing white
space. -/
def stringsTrimSpace (s : List Char) : List Char :=
  ((s.dropWhile unicodeIsSpace).reverse.dropWhile unicodeIsSpace).reverse

/-- Go `strings.Split(s, sep)` for a separator of one character: the pieces of
`s` between the occurrences of `sep`; one more piece than occurrences. -/
def stringsSplit (sep : Char) : List Char → List (List Char)
  | [] => [[]]
  | c :: cs =>
    if c = sep then [] :: stringsSplit sep cs
    else
      match stringsSplit sep cs with
      | [] => [[c]]
      | piece :: pieces => (c :: piece) :: pieces

/-- Go `strings.HasPrefix`. -/
def stringsHasPrefix (s start : List Char) : Bool :=
  start.isPrefixOf s

/-- The digit loop of Go `strconv.ParseUint` in base 10, on the digits read so
far: `none` is the syntax error on a character that is no ASCII digit. -/
def parseDigits : Nat → List Char → Option Nat
  | acc, [] => some acc
  | acc, c :: cs =>
    if '0' ≤ c ∧ c ≤ '9' then parseDigits (acc * 10 + (c.toNat - '0'.toNat)) cs
    else none

/-- Go `strconv.ParseInt(s, 10, 64)`: `none` is a non-nil error (syntax error:
empty text, no digit, a character that is no ASCII digit after the optional
sign; range error: the value does not fit a signed 64-bit integer). -/
def strconvParseInt (s : List Char) : Option Int :=
  match s with
  | [] => none
  | c :: cs =>
    let neg := decide (c = '-')
    let digits := if c = '+' ∨ c = '-' then cs else s
    match digits with
    | [] => none
    | _ :: _ =>
      match parseDigits 0 digits with
      | none => none
      | some un =>
        if !neg && un ≥ 2 ^ 63 then none
        else if neg && un > 2 ^ 63 then none
        else some (if neg then -(un : Int) else (un : Int))

/-- The `for _, directive := range directives` loop of `parseMaxAge`: the value
of `maxAge` when the loop ends. -/
def parseMaxAgeLoop : List (List Char) → Int
  | [] => 0
  | directive :: rest =>
    let directive := stringsTrimSpace directive
    if stringsHasPrefix directive "max-age=".data then
      let parts := stringsSplit '=' directive
      if parts.length = 2 then
        match strconvParseInt (parts.getD 1 []) with
        | some val => if val > 0 then val else 0
        | none => 0
      else 0
    else parseMaxAgeLoop rest

/-- Function `parseMaxAge` of `internal/service/utils.go`. -/
def parseMaxAge (cacheControl : String) (maximum : Int) : Int :=
  if cacheControl = "" then 0
  else
    let maxAge := parseMaxAgeLoop (stringsSplit ',' cacheControl.data)
    if maxAge > maximum then maximum else maxAge

/-- Two's-complement wrap-around of a signed 64-bit result. -/
def wrapInt64 (x : Int) : Int :=
  (x + 2 ^ 63) % 2 ^ 64 - 2 ^ 63

/-- Method `shouldFetchFeed` of `internal/service/utils.go`; `none` is the nil
metadata pointer. -/
def shouldFetchFeed (feed : config.Feed) (metadata : Option db.Feed) (now : Int) : Bool :=
  match metadata with
  | none => true
  | some metadata =>
    let expiryTime := wrapInt64 (metadata.LastChecked + metadata.MaxAge)
    if metadata.MaxAge > 0 ∧ now < expiryTime then false
    else
      let interval := wrapInt64 (feed.Interval * 60)
      if wrapInt64 (now - metadata.LastChecked) < interval then false
      else true

/-! ## The HTTP exchange -/

/-- The request `fetchFeed` builds: a GET of the URL with the headers added by
`req.Header.Add`. -/
structure Request where
  URL : String
  Header : List (String × String)
deriving DecidableEq, Repr

/-- What `fetchFeed` reads of an `http.Response`: the status code, the header
fields, and what `s.parser.Parse(resp.Body)` makes of the body (`none` is a
parse error). -/
structure Response where
  StatusCode : Int
  Header : List (String × String)
  Body : Option (List gofeed.Item)
deriving DecidableEq, Repr

/-- Go `http.Header.Get`: the first value stored under the key, the empty
string when there is none. Header names are written as the source writes them;
the canonical spelling that `net/http` gives a name is not modelled. -/
def headerGet (h : List (String × String)) (key : String) : String :=
  (h.lookup key).getD ""

/-- The outside world of one fetch. -/
structure HTTP where
  /-- Whether `http.NewRequestWithContext` accepts the URL. -/
  newRequest : String → Bool
  /-- The call `s.httpClient.Do(req)`: `none` is a non-nil error (network
  failure, timeout, cancelled context). -/
  Do : Request → Option Response

/-- The results of `fetchFeed`: its three return values, the metadata struct
behind the pointer it was given as the call leaves it, and the request it
handed to the HTTP client. -/
structure FetchResult where
  parsedFeed : Option (List gofeed.Item)
  httpStatus : Int
  err : Option FetchError
  metadata : db.Feed
  sent : Option Request

/-- Method `getFeedMetadata` of `internal/service/utils.go`. -/
def getFeedMetadata (d : db.DB) (feed : config.Feed) : db.Feed × Bool :=
  match d.GetFeed feed.ID with
  | none => (⟨feed.ID, "", "", 0, 0⟩, true)
  | some metadata => (metadata, false)

/-- The request of `fetchFeed` (lines 177 to 186 of `service.go`): a GET of
the feed URL with the conditional header the stored metadata asks for. -/
def fetchRequest (feed : config.Feed) (metadata : db.Feed) : Request :=
  ⟨feed.URL,
    if metadata.ETag ≠ "" then [("If-None-Match", metadata.ETag)]
    else if metadata.LastModified ≠ "" then [("If-Modified-Since", metadata.LastModified)]
    else []⟩

/-- Method `fetchFeed` of `internal/service/service.go`. -/
def fetchFeed (http : HTTP) (feed : config.Feed) (metadata : db.Feed) : FetchResult :=
  if !http.newRequest feed.URL then
    ⟨none, 0, some FetchError.createRequest, metadata, none⟩
  else
    let req := fetchRequest feed metadata
    match http.Do req with
    | none => ⟨none, 0, some FetchError.requestFailed, metadata, some req⟩
    | some resp =>
      let etag := headerGet resp.Header "ETag"
      let metadata := if etag ≠ "" then { metadata with ETag := etag } else metadata
      let lastModified := headerGet resp.Header "Last-Modified"
      let metadata :=
        if lastModified ≠ "" then { metadata with LastModified := lastModified } else metadata
      let cacheControl := headerGet resp.Header "Cache-Control"
      let metadata := { metadata with MaxAge := parseMaxAge cacheControl 14400 }
      if resp.StatusCode = 200 then
        match resp.Body with
        | none => ⟨none, resp.StatusCode, some FetchError.parseFailed, metadata, some req⟩
        | some parsedFeed => ⟨some parsedFeed, resp.StatusCode, none, metadata, some req⟩
      else if resp.StatusCode = 304 then
        ⟨none, 304, none, metadata, some req⟩
      else
        ⟨none, resp.StatusCode, some (FetchError.unexpectedStatus resp.StatusCode), metadata,
          some req⟩

/-- Method `processFeed` of `internal/service/service.go`, with `now` the value
of `time.Now().Unix()` read after the fetch. The error of `fetchFeed` is
returned wrapped ("fetch error: ..."). -/
def processFeed (s : Service) (http : HTTP) (now : Int) (feed : config.Feed) (st : State) :
    Option FetchError × State :=
  let (metadata, firstRun) := getFeedMetadata st.db feed
  let r := fetchFeed http feed metadata
  match r.err with
  | some err => (some err, st)
  | none =>
    let metadata := { r.metadata with LastChecked := now }
    let st := { st with db := st.db.UpdateFeed metadata }
    if r.httpStatus = 304 then (none, st)
    else
      match r.parsedFeed with
      | none => (none, { st with crashed := true })
      | some parsedFeed =>
        if firstRun then (none, logItems feed parsedFeed st)
        else processArticles s feed parsedFeed st

/-- The body of the goroutine that `processAllFeeds` starts for a due feed: it
runs `processFeed` and only logs the error. -/
def feedWorker (s : Service) (http : HTTP) (now : Int) (feed : config.Feed) (st : State) :
    State :=
  (processFeed s http now feed st).2

/-- One article-processing pass over the ledger. -/
inductive Pass where
  /-- Steady state: `processArticles(feed, items)`. -/
  | steady (feed : config.Feed) (items : List gofeed.Item)
  /-- First run: `logItems(feed, items)`. -/
  | firstRun (feed : config.Feed) (items : List gofeed.Item)

/-- One pass; a process that has died runs nothing. -/
def runPass (s : Service) (p : Pass) (st : State) : State :=
  if st.crashed then st
  else
    match p with
    | Pass.steady feed items => (processArticles s feed items st).2
    | Pass.firstRun feed items => logItems feed items st

/-- A sequence of passes, one after the other. -/
def runPasses (s : Service) : List Pass → State → State
  | [], st => st
  | p :: ps, st => runPasses s ps (runPass s p st)

/-! ## Reading the trace -/

/-- The ledger after the calls of a trace: each `LogArticle` call inserts its
pair unless the pair is there. -/
def replay : List db.Article → List Event → List db.Article
  | ledger, [] => ledger
  | ledger, Event.notify _ _ _ :: t => replay ledger t
  | ledger, Event.logArticle f a :: t =>
    replay (if ledger.contains ⟨f, a⟩ then ledger else ledger ++ [⟨f, a⟩]) t

/-- The pairs of the successful `Notify` calls of a trace, in order. -/
def successes : List Event → List db.Article
  | [] => []
  | Event.notify f a true :: t => ⟨f, a⟩ :: successes t
  | _ :: t => successes t

/-- The `Notify` calls of a trace, in order. -/
def notifyCalls (t : List Event) : List Event :=
  t.filter (fun e => match e with
    | Event.notify _ _ _ => true
    | Event.logArticle _ _ => false)

/-- No row of the ledger has an empty article identity. -/
def NoEmptyID (ledger : List db.Article) : Prop :=
  ∀ r ∈ ledger, r.ArticleID ≠ ""

/-- The `LogArticle` calls of a first-run pass over an item list: one for each
item with an identity, in list order. -/
def baselineCalls (feed : config.Feed) (items : List gofeed.Item) : List Event :=
  (items.filter (fun item => getArticleID item ≠ "")).map
    (fun item => Event.logArticle feed.ID (getArticleID item))

/-- The dedup invariant of a state reached from the initial ledger `ledger0`:
the ledger is what the `LogArticle` calls of the trace made of `ledger0`; every
`Notify` call was for a pair absent from the ledger at that moment, and a
successful one is followed at once by the `LogArticle` call of its pair; no
pair was notified successfully twice; every successfully notified pair is in
the ledger and was not in `ledger0`; the ledger holds no pair twice. -/
structure LedgerInv (ledger0 : List db.Article) (st : State) : Prop where
  ledger : st.db.articles = replay ledger0 st.trace
  calls : ∀ (i : Nat) (f a : String) (ok : Bool),
    st.trace[i]? = some (Event.notify f a ok) →
      (⟨f, a⟩ : db.Article) ∉ replay ledger0 (st.trace.take i) ∧
      (ok = true → st.trace[i + 1]? = some (Event.logArticle f a))
  once : (successes st.trace).Nodup
  recorded : ∀ p ∈ successes st.trace, p ∈ st.db.articles ∧ p ∉ ledger0
  key : st.db.articles.Nodup

/-- The value is a signed 64-bit integer. -/
def inInt64 (x : Int) : Prop :=
  -2 ^ 63 ≤ x ∧ x < 2 ^ 63

/-- The first max-age directive of a Cache-Control header, in the words of the
spec: the first comma-separated directive that, after trimming the surrounding
white space, begins with "max-age=". -/
def firstMaxAgeDirective (cacheControl : String) : Option (List Char) :=
  ((stringsSplit ',' cacheControl.data).map stringsTrimSpace).find?
    (fun directive => stringsHasPrefix directive "max-age=".data)

/-- The value of a max-age directive: the text after "max-age=". -/
def directiveValue (directive : List Char) : List Char :=
  directive.drop 8

/-- The number a plain decimal numeral denotes: a non-empty text of ASCII
digits read in base 10, of any length; `none` for any other text. -/
def decimalValue (s : List Char) : Option Nat :=
  match s with
  | [] => none
  | _ :: _ => parseDigits 0 s

/-- What the loop of `parseMaxAge` makes of a directive that begins with
"max-age=" (lines 52 to 61 of `utils.go`). -/
def maxAgeOfDirective (directive : List Char) : Int :=
  let parts := stringsSplit '=' directive
  if parts.length = 2 then
    match strconvParseInt (parts.getD 1 []) with
    | some val => if val > 0 then val else 0
    | none => 0
  else 0

/-- The value of `maxAge` that the first max-age directive of a header gives,
before the cap: 0 when there is no such directive. -/
def firstMaxAge (cacheControl : String) : Int :=
  match firstMaxAgeDirective cacheControl with
  | none => 0
  | some directive =>
    match strconvParseInt (directiveValue directive) with
    | some val => if val > 0 then val else 0
    | none => 0

end service

/-! ## Configuration: `internal/config` -/

namespace config

/-- The decoded settings of a notifier: the two implementations of the
`NotifierSettings` interface. -/
inductive NotifierSettings where
  /-- The struct `MattermostWebhookSettings`. -/
  | mattermostWebhook (Webhook : String) (HTMLToMarkdown : Bool)
  /-- The struct `PushoverSettings`. -/
  | pushover (AppToken UserKey : String)
deriving DecidableEq, Repr

/-- A value of type `interface{}` in a settings map, as the YAML file gives
it. -/
inductive RawValue where
  /-- The nil value. -/
  | null
  /-- A boolean. -/
  | bool (b : Bool)
  /-- An integer. -/
  | int (n : Int)
  /-- A floating point number, by its text. -/
  | float (text : String)
  /-- A string. -/
  | text (s : String)
  /-- A sequence. -/
  | list (items : List RawValue)
  /-- A nested map. -/
  | map (entries : List (String × RawValue))
  /-- Any other Go value, by a description. -/
  | other (description : String)

/-- The `Notifier` struct of `config.go`. The raw settings are the entries of
the map `RawSettings`; `Settings` is nil (`none`) until validation decodes
them. The field `Type_` is the field `Type` of the source. -/
structure Notifier where
  ID : String
  Type_ : String
  RawSettings : List (String × RawValue)
  Settings : Option NotifierSettings

/-- The anonymous struct of the `Fetch` field of `Config`. -/
structure Fetch where
  Jobs : Int
  Interval : Int
deriving DecidableEq, Repr

/-- The `Config` struct of `config.go`. -/
structure Config where
  Database : String
  Debug : Bool
  Fetch : Fetch
  Notifiers : List Notifier
  DefaultNotifier : String
  Feeds : List Feed

/-- The errors of `Validate` and `Load`, one for each message of the source. -/
inductive ConfigError where
  /-- The file could not be read or decoded ("config error"). -/
  | loadFailed
  /-- Message "fetch.jobs cannot be negative". -/
  | fetchJobsNegative
  /-- Message "fetch.jobs cannot be greater than 10". -/
  | fetchJobsTooLarge
  /-- Message "fetch.interval cannot be negative". -/
  | fetchIntervalNegative
  /-- Message "notifiers must have an id". -/
  | notifierNoID
  /-- Message "notifiers cannot have an id of stdout". -/
  | notifierIDStdout
  /-- Message "duplicate notifier id". -/
  | notifierDuplicate (id : String)
  /-- Message "type must be defined for notifier". -/
  | notifierNoType (id : String)
  /-- Message "failed to load settings for notifier". -/
  | settingsLoadFailed (id : String)
  /-- Message "invalid settings for notifier". -/
  | settingsInvalid (id : String)
  /-- Message "settings.webhook must be defined for notifier". -/
  | webhookMissing (id : String)
  /-- Message "settings.app_token must be defined for notifier". -/
  | appTokenMissing (id : String)
  /-- Message "settings.user_key must be defined for notifier". -/
  | userKeyMissing (id : String)
  /-- Message "type is invalid for notifier". -/
  | notifierTypeInvalid (kind id : String)
  /-- Message "default_notifier does not match any notifiers". -/
  | defaultNotifierUnknown (name : String)
  /-- Message "feeds must have an id". -/
  | feedNoID
  /-- Message "display name must be defined for feed". -/
  | feedNoDisplayName (id : String)
  /-- Message "duplicate feed id". -/
  | feedDuplicate (id : String)
  /-- Message "url must be defined for feed". -/
  | feedNoURL (id : String)
  /-- Message "interval cannot be negative for feed". -/
  | feedIntervalNegative (id : String)
  /-- Message "notifier for feed does not match any notifiers". -/
  | feedNotifierUnknown (notifier id : String)
deriving DecidableEq, Repr

/-- The constant `NotifierMattermostWebhook`. -/
def NotifierMattermostWebhook : String := "mattermost_webhook"

/-- The constant `NotifierPushover`. -/
def NotifierPushover : String := "pushover"

/-- The constant `NotifierStdout`. -/
def NotifierStdout : String := "stdout"

/-- The koanf library as `validateSettings` uses it, which is the outside
world: how it matches keys, converts values and when it fails is not fixed
here. -/
structure Koanf where
  /-- Whether `k.Load(confmap.Provider(n.RawSettings, "."), nil)` returns a nil
  error. -/
  load : List (String × RawValue) → Bool
  /-- The call `k.Unmarshal("", &s)` for a `MattermostWebhookSettings`: the
  fields `Webhook` and `HTMLToMarkdown` of the decoded struct, `none` for a
  non-nil error. -/
  unmarshalMattermostWebhook : List (String × RawValue) → Option (String × Bool)
  /-- The call `k.Unmarshal("", &s)` for a `PushoverSettings`: the fields
  `AppToken` and `UserKey` of the decoded struct, `none` for a non-nil error. -/
  unmarshalPushover : List (String × RawValue) → Option (String × String)

/-- Method `validateFetch` of `validate.go`; `none` is the nil error. -/
def validateFetch (c : Config) : Option ConfigError :=
  if c.Fetch.Jobs < 0 then some ConfigError.fetchJobsNegative
  else if c.Fetch.Jobs > 10 then some ConfigError.fetchJobsTooLarge
  else if c.Fetch.Interval ≤ 0 then some ConfigError.fetchIntervalNegative
  else none

/-- Method `validateSettings` of `validate.go`: the notifier with its decoded
settings, or the error. The checks on the decoded struct are the `Validate`
methods of `MattermostWebhookSettings` and `PushoverSettings`. -/
def validateSettings (koanf : Koanf) (n : Notifier) : Except ConfigError Notifier :=
  if !koanf.load n.RawSettings then Except.error (ConfigError.settingsLoadFailed n.ID)
  else if n.Type_ = NotifierMattermostWebhook then
    match koanf.unmarshalMattermostWebhook n.RawSettings with
    | none => Except.error (ConfigError.settingsInvalid n.ID)
    | some (webhook, htmlToMarkdown) =>
      if webhook = "" then Except.error (ConfigError.webhookMissing n.ID)
      else
        Except.ok { n with
          Settings := some (NotifierSettings.mattermostWebhook webhook htmlToMarkdown) }
  else if n.Type_ = NotifierPushover then
    match koanf.unmarshalPushover n.RawSettings with
    | none => Except.error (ConfigError.settingsInvalid n.ID)
    | some (appToken, userKey) =>
      if appToken = "" then Except.error (ConfigError.appTokenMissing n.ID)
      else if userKey = "" then Except.error (ConfigError.userKeyMissing n.ID)
      else Except.ok { n with Settings := some (NotifierSettings.pushover appToken userKey) }
  else Except.error (ConfigError.notifierTypeInvalid n.Type_ n.ID)

/-- The loop of `validateNotifiers` over the notifiers not yet checked, with
the keys of the map `notifierIDs` so far: the keys of the map at the end and
the notifiers with their decoded settings, or the error. -/
def validateNotifiersLoop (koanf : Koanf) :
    List Notifier → List String → Except ConfigError (List String × List Notifier)
  | [], notifierIDs => Except.ok (notifierIDs, [])
  | notifier :: rest, notifierIDs =>
    if notifier.ID = "" then Except.error ConfigError.notifierNoID
    else if notifier.ID = "stdout" then Except.error ConfigError.notifierIDStdout
    else if notifierIDs.contains notifier.ID then
      Except.error (ConfigError.notifierDuplicate notifier.ID)
    else if notifier.Type_ = "" then Except.error (ConfigError.notifierNoType notifier.ID)
    else
      match validateSettings koanf notifier with
      | Except.error e => Except.error e
      | Except.ok decoded =>
        match validateNotifiersLoop koanf rest (notifier.ID :: notifierIDs) with
        | Except.error e => Except.error e
        | Except.ok (ids, others) => Except.ok (ids, decoded :: others)

/-- Method `validateNotifiers` of `validate.go`. -/
def validateNotifiers (koanf : Koanf) (c : Config) :
    Except ConfigError (List String × List Notifier) :=
  validateNotifiersLoop koanf c.Notifiers ["stdout"]

/-- Method `validateDefaultNotifier` of `validate.go`. -/
def validateDefaultNotifier (c : Config) (notifierIDs : List String) : Option ConfigError :=
  if notifierIDs.contains c.DefaultNotifier then none
  else some (ConfigError.defaultNotifierUnknown c.DefaultNotifier)

/-- The loop of `validateFeeds` over the feeds not yet checked, with the keys
of the map `feedIDs` so far. -/
def validateFeedsLoop (notifierIDs : List String) :
    List Feed → List String → Option ConfigError
  | [], _ => none
  | feed :: rest, feedIDs =>
    if feed.ID = "" then some ConfigError.feedNoID
    else if feed.DisplayName = "" then some (ConfigError.feedNoDisplayName feed.ID)
    else if feedIDs.contains feed.ID then some (ConfigError.feedDuplicate feed.ID)
    else if feed.URL = "" then some (ConfigError.feedNoURL feed.ID)
    else if feed.Interval < 0 then some (ConfigError.feedIntervalNegative feed.ID)
    else if feed.Notifier ≠ "" ∧ ¬ notifierIDs.contains feed.Notifier then
      some (ConfigError.feedNotifierUnknown feed.Notifier feed.ID)
    else validateFeedsLoop notifierIDs rest (feed.ID :: feedIDs)

/-- Method `validateFeeds` of `validate.go`. -/
def validateFeeds (c : Config) (notifierIDs : List String) : Option ConfigError :=
  validateFeedsLoop notifierIDs c.Feeds []

/-- Method `Validate` of `validate.go`: the error, or the configuration as the
call leaves it (the notifiers with their decoded settings). -/
def Validate (koanf : Koanf) (c : Config) : Except ConfigError Config :=
  match validateFetch c with
  | some e => Except.error e
  | none =>
    match validateNotifiers koanf c with
    | Except.error e => Except.error e
    | Except.ok (notifierIDs, notifiers) =>
      match validateDefaultNotifier c notifierIDs with
      | some e => Except.error e
      | none =>
        match validateFeeds c notifierIDs with
        | some e => Except.error e
        | none => Except.ok { c with Notifiers := notifiers }

/-- Method `setDefaults` of `config.go`, with `expandEnv` for `os.ExpandEnv`. -/
def setDefaults (expandEnv : String → String) (c : Config) : Config :=
  let database :=
    if c.Database = "" then expandEnv "$HOME/.local/share/feed-notifier/db"
    else expandEnv c.Database
  let jobs := if c.Fetch.Jobs = 0 then 3 else c.Fetch.Jobs
  let interval := if c.Fetch.Interval = 0 then 60 else c.Fetch.Interval
  let defaultNotifier := if c.DefaultNotifier = "" then "stdout" else c.DefaultNotifier
  { c with
    Database := database
    Fetch := ⟨jobs, interval⟩
    DefaultNotifier := defaultNotifier
    Feeds := c.Feeds.map (fun feed =>
      { feed with
        Interval := if feed.Interval = 0 then interval else feed.Interval
        Notifier := if feed.Notifier = "" then defaultNotifier else feed.Notifier }) }

/-- Function `Load` of `config.go` after the file is read: `decoded` is what
`k.Unmarshal` made of the file (`none` when reading or decoding failed). -/
def Load (expandEnv : String → String) (koanf : Koanf) (decoded : Option Config) :
    Except ConfigError Config :=
  match decoded with
  | none => Except.error ConfigError.loadFailed
  | some c =>
    match Validate koanf c with
    | Except.error e => Except.error e
    | Except.ok validated => Except.ok (setDefaults expandEnv validated)

end config

/-! ## Service construction -/

namespace service

/-- The behaviour of the notifier instances, which is the outside world: the
built-in stdout notifier and the instances the two plugins build from their
settings. -/
structure Plugins where
  /-- The instance `notifier.NewStdout()`. -/
  stdout : Notifier
  /-- The instance `NewMattermostWebhook(settings)`. -/
  mattermostWebhook : String → Bool → Notifier
  /-- The instance `NewPushover(settings)`. -/
  pushover : String → String → Notifier

/-- The ways `initNotifiers` fails. -/
inductive InitError where
  /-- The error of `Create`: "unsupported notifier type". -/
  | unsupportedType (id kind : String)
  /-- The runtime panic of a failed type assertion on `Settings` in `Create`. -/
  | settingsAssertion (id : String)
deriving DecidableEq, Repr

/-- Method `Create` of `NotifierFactory` (`notifier.go`). -/
def factoryCreate (plugins : Plugins) (notifierConfig : config.Notifier) :
    Except InitError Notifier :=
  if notifierConfig.Type_ = config.NotifierMattermostWebhook then
    match notifierConfig.Settings with
    | some (config.NotifierSettings.mattermostWebhook webhook htmlToMarkdown) =>
      Except.ok (plugins.mattermostWebhook webhook htmlToMarkdown)
    | _ => Except.error (InitError.settingsAssertion notifierConfig.ID)
  else if notifierConfig.Type_ = config.NotifierPushover then
    match notifierConfig.Settings with
    | some (config.NotifierSettings.pushover appToken userKey) =>
      Except.ok (plugins.pushover appToken userKey)
    | _ => Except.error (InitError.settingsAssertion notifierConfig.ID)
  else Except.error (InitError.unsupportedType notifierConfig.ID notifierConfig.Type_)

/-- The loop of `initNotifiers` over the configured notifiers, on the map built
so far. The assignment `s.notifierMap[n.ID] = notifierInstance` puts the pair
in front, where the lookup finds it first. -/
def initNotifiersLoop (plugins : Plugins) :
    List config.Notifier → List (String × Notifier) → Except InitError (List (String × Notifier))
  | [], notifierMap => Except.ok notifierMap
  | n :: rest, notifierMap =>
    match factoryCreate plugins n with
    | Except.error e => Except.error e
    | Except.ok notifierInstance =>
      initNotifiersLoop plugins rest ((n.ID, notifierInstance) :: notifierMap)

/-- Method `initNotifiers` of `service.go`: the notifier map it builds. -/
def initNotifiers (plugins : Plugins) (c : config.Config) :
    Except InitError (List (String × Notifier)) :=
  initNotifiersLoop plugins c.Notifiers [("stdout", plugins.stdout)]

/-- Function `New` of `service.go`: the service with its notifier map. -/
def New (plugins : Plugins) (c : config.Config) : Except InitError Service :=
  match initNotifiers plugins c with
  | Except.error e => Except.error e
  | Except.ok notifierMap => Except.ok ⟨notifierMap⟩

end service

/-! ## The scheduler: `Start`, `Stop`, `processAllFeeds` and the feed workers

The goroutines are modelled by a step function: a state says where the
goroutine of `Start` is and how many feed workers are in each stage; an action
is one move of one goroutine; an action that is blocked or out of place
yields `none`. Every interleaving of the goroutines is a list of actions. -/

namespace service

/-- Where the goroutine that `Start` launches is. -/
inductive Phase where
  /-- In `processAllFeeds`, at the top of the `for` loop (line 109), with the
  feeds not yet visited. -/
  | loopHead (remaining : List config.Feed)
  /-- In `processAllFeeds`, in the `select` of lines 125 to 131 for a due feed:
  waiting for a slot of the semaphore or for the cancellation. -/
  | acquiring (feed : config.Feed) (remaining : List config.Feed)
  /-- In `processAllFeeds`, in `wg.Wait()` (line 143). -/
  | barrier
  /-- The call of `processAllFeeds` has returned: in the `select` of `Start`
  (lines 87 to 92). -/
  | idle
  /-- The goroutine of `Start` has returned and its deferred `s.wg.Done()` has
  run: `s.wg.Wait()` in `Stop` no longer blocks. -/
  | exited
deriving DecidableEq, Repr

/-- How many feed workers (the goroutines of lines 134 to 140) are in each
stage. -/
structure Workers where
  /-- Launched by `go func`, `processFeed` not yet entered; holds a slot. -/
  spawned : Nat
  /-- Inside `s.processFeed(&f)`; holds a slot. -/
  fetching : Nat
  /-- Finished `processFeed`, the deferred `<-s.semaphore` not yet run. -/
  releasing : Nat
  /-- Slot given back, the deferred `wg.Done()` not yet run. -/
  finishing : Nat
deriving DecidableEq, Repr

/-- The counter of the `sync.WaitGroup` that counts these workers. -/
def Workers.total (w : Workers) : Nat :=
  w.spawned + w.fetching + w.releasing + w.finishing

/-- The slots of the semaphore these workers hold. -/
def Workers.holding (w : Workers) : Nat :=
  w.spawned + w.fetching + w.releasing

/-- Two groups of workers taken together. -/
def Workers.add (a b : Workers) : Workers :=
  ⟨a.spawned + b.spawned, a.fetching + b.fetching, a.releasing + b.releasing,
    a.finishing + b.finishing⟩

/-- The state of the scheduler and its workers. -/
structure Sched where
  phase : Phase
  /-- The context `s.ctx` is done: `Stop` has called `s.cancel()`. -/
  cancelled : Bool
  /-- The number of elements in the channel `s.semaphore`. -/
  semaphore : Nat
  /-- The workers started by the running call of `processAllFeeds`: the ones
  its local `wg` counts. -/
  current : Workers
  /-- The workers started by calls of `processAllFeeds` that have returned. -/
  orphaned : Workers
deriving DecidableEq, Repr

/-- One move of one goroutine. The flag of a worker action says whether the
worker belongs to a call of `processAllFeeds` that has returned. -/
inductive Action where
  /-- In `Stop`: `s.cancel()`. -/
  | cancel
  /-- In `Start`: `case <-s.ticker.C`, the next call of `processAllFeeds`. -/
  | tick
  /-- In `Start`: `case <-s.ctx.Done(): return`. -/
  | exitStart
  /-- In `processAllFeeds`, lines 111 to 113: the context is done, `return`. -/
  | seeCancelled
  /-- In `processAllFeeds`, lines 114 to 123: the context is not done and
  `shouldFetchFeed` is false, `continue`. -/
  | notDue
  /-- In `processAllFeeds`, lines 114 to 123: the context is not done and
  `shouldFetchFeed` is true. -/
  | due
  /-- In `processAllFeeds`, line 126 and lines 133 to 134: the send on the
  semaphore goes through, `wg.Add(1)`, `go func`. -/
  | acquire
  /-- In `processAllFeeds`, lines 128 to 130: the context is done, `return`. -/
  | giveUp
  /-- In `processAllFeeds`: the loop is over, on to `wg.Wait()`. -/
  | endLoop
  /-- In `processAllFeeds`: `wg.Wait()` returns, and so does the call. -/
  | waitDone
  /-- A worker enters `processFeed`. -/
  | workerStart (orphan : Bool)
  /-- The call of `processFeed` of a worker returns. -/
  | workerFetched (orphan : Bool)
  /-- A worker runs its deferred `<-s.semaphore`. -/
  | workerRelease (orphan : Bool)
  /-- A worker runs its deferred `wg.Done()` and ends. -/
  | workerDone (orphan : Bool)
deriving DecidableEq, Repr

/-- The state in which a call of `processAllFeeds` returns without `wg.Wait()`:
its workers are no longer waited for by anyone. -/
def Sched.abandon (s : Sched) : Sched :=
  { s with phase := Phase.idle, orphaned := s.orphaned.add s.current, current := ⟨0, 0, 0, 0⟩ }

/-- The group of workers an action of a worker is about. -/
def Sched.group (s : Sched) (orphan : Bool) : Workers :=
  if orphan then s.orphaned else s.current

/-- The state with the group of workers replaced. -/
def Sched.setGroup (s : Sched) (orphan : Bool) (w : Workers) : Sched :=
  if orphan then { s with orphaned := w } else { s with current := w }

/-- One step: the state after the action, `none` when the action is blocked or
not the next move of its goroutine. `jobs` is the capacity of the semaphore
(`config.Fetch.Jobs`), `feeds` is `s.config.Feeds`. -/
def schedStep (jobs : Nat) (feeds : List config.Feed) (a : Action) (s : Sched) :
    Option Sched :=
  match a with
  | Action.cancel => some { s with cancelled := true }
  | Action.tick =>
    match s.phase with
    | Phase.idle => some { s with phase := Phase.loopHead feeds }
    | _ => none
  | Action.exitStart =>
    match s.phase with
    | Phase.idle => if s.cancelled then some { s with phase := Phase.exited } else none
    | _ => none
  | Action.seeCancelled =>
    match s.phase with
    | Phase.loopHead (_ :: _) => if s.cancelled then some s.abandon else none
    | _ => none
  | Action.notDue =>
    match s.phase with
    | Phase.loopHead (_ :: rest) =>
      if s.cancelled then none else some { s with phase := Phase.loopHead rest }
    | _ => none
  | Action.due =>
    match s.phase with
    | Phase.loopHead (feed :: rest) =>
      if s.cancelled then none else some { s with phase := Phase.acquiring feed rest }
    | _ => none
  | Action.acquire =>
    match s.phase with
    | Phase.acquiring _ rest =>
      if s.semaphore < jobs then
        some { s with
          phase := Phase.loopHead rest
          semaphore := s.semaphore + 1
          current := { s.current with spawned := s.current.spawned + 1 } }
      else none
    | _ => none
  | Action.giveUp =>
    match s.phase with
    | Phase.acquiring _ _ => if s.cancelled then some s.abandon else none
    | _ => none
  | Action.endLoop =>
    match s.phase with
    | Phase.loopHead [] => some { s with phase := Phase.barrier }
    | _ => none
  | Action.waitDone =>
    match s.phase with
    | Phase.barrier => if s.current.total = 0 then some { s with phase := Phase.idle } else none
    | _ => none
  | Action.workerStart orphan =>
    let w := s.group orphan
    if w.spawned = 0 then none
    else some (s.setGroup orphan { w with spawned := w.spawned - 1, fetching := w.fetching + 1 })
  | Action.workerFetched orphan =>
    let w := s.group orphan
    if w.fetching = 0 then none
    else
      some (s.setGroup orphan { w with fetching := w.fetching - 1, releasing := w.releasing + 1 })
  | Action.workerRelease orphan =>
    let w := s.group orphan
    if w.releasing = 0 ∨ s.semaphore = 0 then none
    else
      some ({ s with semaphore := s.semaphore - 1 }.setGroup orphan
        { w with releasing := w.releasing - 1, finishing := w.finishing + 1 })
  | Action.workerDone orphan =>
    let w := s.group orphan
    if w.finishing = 0 then none
    else some (s.setGroup orphan { w with finishing := w.finishing - 1 })

/-- The state right after `Start`: the goroutine is in its first call of
`processAllFeeds`, no slot is taken, no worker runs. -/
def schedStart (feeds : List config.Feed) : Sched :=
  ⟨Phase.loopHead feeds, false, 0, ⟨0, 0, 0, 0⟩, ⟨0, 0, 0, 0⟩⟩

/-- A run: the actions one after the other, `none` when one of them is not
possible. -/
def schedRun (jobs : Nat) (feeds : List config.Feed) : List Action → Sched → Option Sched
  | [], s => some s
  | a :: rest, s =>
    match schedStep jobs feeds a s with
    | none => none
    | some next => schedRun jobs feeds rest next

/-- The accounting of the semaphore: its elements are the slots the workers
hold, and there are at most `jobs` of them. -/
def SlotsInv (jobs : Nat) (s : Sched) : Prop :=
  s.semaphore = s.current.holding + s.orphaned.holding ∧ s.semaphore ≤ jobs

end service

/-! # Theorems -/

namespace service

/-! ## parseMaxAge: bounds -/

theorem parseMaxAgeLoop_nonneg (directives : List (List Char)) :
    0 ≤ parseMaxAgeLoop directives := by
  induction directives with
  | nil => simp [parseMaxAgeLoop]
  | cons d ds ih =>
    simp only [parseMaxAgeLoop]
    split_ifs with h1 h2
    · split
      · split_ifs with h3
        · exact le_of_lt h3
        · exact le_refl 0
      · exact le_refl 0
    · exact le_refl 0
    · exact ih

theorem parseMaxAge_nonneg (h : String) (maximum : Int) (hmax : 0 ≤ maximum) :
    0 ≤ parseMaxAge h maximum := by
  simp only [parseMaxAge]
  split_ifs with h1 h2
  · exact le_refl 0
  · exact hmax
  · exact parseMaxAgeLoop_nonneg _

theorem parseMaxAge_le (h : String) (maximum : Int) (hmax : 0 ≤ maximum) :
    parseMaxAge h maximum ≤ maximum := by
  simp only [parseMaxAge]
  split_ifs with h1 h2
  · exact hmax
  · exact le_refl maximum
  · exact not_lt.mp h2

/-- C5: for every Cache-Control header text and every maximum that is not
negative, the cache lifetime `parseMaxAge` computes lies between 0 and the
maximum; with the maximum 14400 that `fetchFeed` passes it lies between 0 and
14400, and the header `max-age=999999` gives 14400. -/
theorem parseMaxAge_bounds (h : String) (maximum : Int) (hmax : 0 ≤ maximum) :
    (0 ≤ parseMaxAge h 14400 ∧ parseMaxAge h 14400 ≤ 14400) ∧
    parseMaxAge "max-age=999999" 14400 = 14400 ∧
    parseMaxAge "max-age=999999" 14400 ≠ 999999 ∧
    (0 ≤ parseMaxAge h maximum ∧ parseMaxAge h maximum ≤ maximum) :=
  ⟨⟨parseMaxAge_nonneg h 14400 (by decide), parseMaxAge_le h 14400 (by decide)⟩,
    by decide, by decide, parseMaxAge_nonneg h maximum hmax, parseMaxAge_le h maximum hmax⟩

theorem parseMaxAge_bounds_witness :
    (0 : Int) ≤ 100 ∧
    ((0 ≤ parseMaxAge "garbage, max-age=7200" 14400 ∧
        parseMaxAge "garbage, max-age=7200" 14400 ≤ 14400) ∧
      parseMaxAge "max-age=999999" 14400 = 14400 ∧
      parseMaxAge "max-age=999999" 14400 ≠ 999999 ∧
      (0 ≤ parseMaxAge "garbage, max-age=7200" 100 ∧
        parseMaxAge "garbage, max-age=7200" 100 ≤ 100)) :=
  ⟨by decide, parseMaxAge_bounds "garbage, max-age=7200" 100 (by decide)⟩

/-! ## Article identity -/

theorem getArticleID_eq_empty_iff (item : gofeed.Item) :
    getArticleID item = "" ↔ item.GUID = "" ∧ item.Link = "" ∧ item.Title = "" := by
  unfold getArticleID
  split_ifs with h1 h2 h3
  · simp [h1]
  · simp [h2]
  · simp [h3]
  · simp only [ne_eq, not_not] at h1 h2 h3
    simp [h1, h2, h3]

theorem logItems_skip (feed : config.Feed) (item : gofeed.Item)
    (hid : getArticleID item = "") (pre post : List gofeed.Item) (st : State) :
    logItems feed (pre ++ item :: post) st = logItems feed (pre ++ post) st := by
  induction pre generalizing st with
  | nil => simp [logItems, hid]
  | cons x xs ih =>
    simp only [List.cons_append, logItems]
    split_ifs
    · exact ih st
    · exact ih _

theorem processArticlesLoop_skip (n : Option Notifier) (feed : config.Feed)
    (item : gofeed.Item) (hid : getArticleID item = "") (pre post : List gofeed.Item)
    (st : State) :
    processArticlesLoop n feed (pre ++ item :: post) st =
      processArticlesLoop n feed (pre ++ post) st := by
  induction pre generalizing st with
  | nil => simp [processArticlesLoop, hid]
  | cons x xs ih =>
    simp only [List.cons_append, processArticlesLoop]
    split_ifs
    · exact ih st
    · cases n with
      | none => rfl
      | some f =>
        simp only
        split_ifs
        · exact ih _
        · exact ih _
    · exact ih st

theorem LogArticle_noEmptyID (d : db.DB) (f a : String) (ha : a ≠ "")
    (h : NoEmptyID d.articles) : NoEmptyID (d.LogArticle f a).articles := by
  unfold db.DB.LogArticle
  split_ifs
  · exact h
  · intro r hr
    simp only [List.mem_append, List.mem_singleton] at hr
    rcases hr with hr | hr
    · exact h r hr
    · subst hr; exact ha

theorem logItems_noEmptyID (feed : config.Feed) (items : List gofeed.Item) (st : State)
    (h : NoEmptyID st.db.articles) : NoEmptyID (logItems feed items st).db.articles := by
  induction items generalizing st with
  | nil => exact h
  | cons x xs ih =>
    simp only [logItems]
    split_ifs with hx
    · exact ih st h
    · exact ih _ (LogArticle_noEmptyID _ _ _ hx h)

theorem processArticlesLoop_noEmptyID (n : Option Notifier) (feed : config.Feed)
    (items : List gofeed.Item) (st : State) (h : NoEmptyID st.db.articles) :
    NoEmptyID (processArticlesLoop n feed items st).db.articles := by
  induction items generalizing st with
  | nil => exact h
  | cons x xs ih =>
    simp only [processArticlesLoop]
    split_ifs with hx hnew
    · exact ih st h
    · cases n with
      | none => exact h
      | some f =>
        simp only
        split_ifs
        · exact ih _ (LogArticle_noEmptyID _ _ _ hx h)
        · exact ih _ h
    · exact ih st h

theorem runPass_noEmptyID (s : Service) (p : Pass) (st : State)
    (h : NoEmptyID st.db.articles) : NoEmptyID (runPass s p st).db.articles := by
  unfold runPass
  split_ifs
  · exact h
  · cases p with
    | steady feed items => exact processArticlesLoop_noEmptyID _ feed items st h
    | firstRun feed items => exact logItems_noEmptyID feed items st h

theorem runPasses_noEmptyID (s : Service) (passes : List Pass) (st : State)
    (h : NoEmptyID st.db.articles) : NoEmptyID (runPasses s passes st).db.articles := by
  induction passes generalizing st with
  | nil => exact h
  | cons p ps ih => exact ih _ (runPass_noEmptyID s p st h)

/-- C7: `getArticleID` returns the GUID when it is not empty, otherwise the link
when that is not empty, otherwise the title; it returns the empty string exactly
when the three are empty; an item without identity inside any item list leaves
`processArticles` and `logItems` exactly as if it were not in the list (no
`Notify` call, no insert); and no sequence of passes over a ledger without an
empty article identity creates a row with one. -/
theorem getArticleID_spec (item : gofeed.Item) :
    (item.GUID ≠ "" → getArticleID item = item.GUID) ∧
    (item.GUID = "" → item.Link ≠ "" → getArticleID item = item.Link) ∧
    (item.GUID = "" → item.Link = "" → getArticleID item = item.Title) ∧
    (getArticleID item = "" ↔ item.GUID = "" ∧ item.Link = "" ∧ item.Title = "") ∧
    (getArticleID item = "" →
      ∀ (s : Service) (feed : config.Feed) (pre post : List gofeed.Item) (st : State),
        processArticles s feed (pre ++ item :: post) st = processArticles s feed (pre ++ post) st ∧
        logItems feed (pre ++ item :: post) st = logItems feed (pre ++ post) st) ∧
    (∀ (s : Service) (passes : List Pass) (st : State),
      (∀ r ∈ st.db.articles, r.ArticleID ≠ "") →
      ∀ r ∈ (runPasses s passes st).db.articles, r.ArticleID ≠ "") := by
  refine ⟨?_, ?_, ?_, getArticleID_eq_empty_iff item, ?_, ?_⟩
  · intro h; simp [getArticleID, h]
  · intro h1 h2; simp [getArticleID, h1, h2]
  · intro h1 h2
    by_cases h3 : item.Title = ""
    · simp [getArticleID, h1, h2, h3]
    · simp [getArticleID, h1, h2, h3]
  · intro hid s feed pre post st
    refine ⟨?_, logItems_skip feed item hid pre post st⟩
    simp only [processArticles]
    rw [processArticlesLoop_skip _ feed item hid pre post st]
  · intro s passes st h
    exact runPasses_noEmptyID s passes st h

theorem getArticleID_spec_witness :
    getArticleID ⟨"", "", ""⟩ = "" ∧
    processArticles ⟨[("stdout", fun _ _ _ => true)]⟩ ⟨"f", "u", "F", 60, "stdout"⟩
        ([⟨"g1", "", ""⟩] ++ ⟨"", "", ""⟩ :: [⟨"", "l2", ""⟩]) ⟨⟨[], []⟩, [], false⟩ =
      processArticles ⟨[("stdout", fun _ _ _ => true)]⟩ ⟨"f", "u", "F", 60, "stdout"⟩
        ([⟨"g1", "", ""⟩] ++ [⟨"", "l2", ""⟩]) ⟨⟨[], []⟩, [], false⟩ :=
  ⟨by decide,
    ((getArticleID_spec ⟨"", "", ""⟩).2.2.2.2.1 (by decide)
      ⟨[("stdout", fun _ _ _ => true)]⟩ ⟨"f", "u", "F", 60, "stdout"⟩
      [⟨"g1", "", ""⟩] [⟨"", "l2", ""⟩] ⟨⟨[], []⟩, [], false⟩).1⟩

/-! ## The database -/

theorem GetFeed_FeedID (d : db.DB) (feedID : String) (row : db.Feed)
    (h : d.GetFeed feedID = some row) : row.FeedID = feedID := by
  unfold db.DB.GetFeed at h
  have := List.find?_some h
  simpa using this

theorem find_map_replace (rows : List db.Feed) (m : db.Feed)
    (hany : rows.any (fun row => row.FeedID == m.FeedID) = true) :
    (rows.map (fun row => if row.FeedID == m.FeedID then m else row)).find?
      (fun row => row.FeedID == m.FeedID) = some m := by
  induction rows with
  | nil => simp at hany
  | cons x xs ih =>
    by_cases hx : x.FeedID = m.FeedID
    · simp [List.find?, hx]
    · have hxs : xs.any (fun row => row.FeedID == m.FeedID) = true := by
        simpa [hx] using hany
      have hb : (x.FeedID == m.FeedID) = false := by simpa using hx
      rw [List.map_cons, hb, if_neg (by simp), List.find?_cons_of_neg _ (by simpa using hx)]
      exact ih hxs

theorem find_append_new (rows : List db.Feed) (m : db.Feed)
    (hany : rows.any (fun row => row.FeedID == m.FeedID) = false) :
    (rows ++ [m]).find? (fun row => row.FeedID == m.FeedID) = some m := by
  induction rows with
  | nil => simp [List.find?]
  | cons x xs ih =>
    have hx : ¬ x.FeedID = m.FeedID := by
      intro hx; simp [hx] at hany
    have hxs : xs.any (fun row => row.FeedID == m.FeedID) = false := by
      simpa [hx] using hany
    rw [List.cons_append, List.find?_cons_of_neg _ (by simpa using hx)]
    exact ih hxs

theorem GetFeed_UpdateFeed (d : db.DB) (m : db.Feed) :
    (d.UpdateFeed m).GetFeed m.FeedID = some m := by
  unfold db.DB.UpdateFeed db.DB.GetFeed
  split_ifs with h
  · exact find_map_replace d.feeds m h
  · exact find_append_new d.feeds m (by simpa using h)

theorem UpdateFeed_articles (d : db.DB) (m : db.Feed) :
    (d.UpdateFeed m).articles = d.articles := by
  unfold db.DB.UpdateFeed
  split_ifs <;> rfl

theorem LogArticle_feeds (d : db.DB) (f a : String) :
    (d.LogArticle f a).feeds = d.feeds := by
  unfold db.DB.LogArticle
  split_ifs <;> rfl

theorem LogArticle_mem (d : db.DB) (f a : String) :
    (⟨f, a⟩ : db.Article) ∈ (d.LogArticle f a).articles := by
  unfold db.DB.LogArticle
  split_ifs with h
  · simpa using h
  · simp

theorem LogArticle_mono (d : db.DB) (f a : String) (r : db.Article)
    (h : r ∈ d.articles) : r ∈ (d.LogArticle f a).articles := by
  unfold db.DB.LogArticle
  split_ifs
  · exact h
  · simp [h]

/-! ## fetchFeed and processFeed -/

theorem fetchFeed_metadata (http : HTTP) (feed : config.Feed) (md : db.Feed) (resp : Response)
    (hreq : http.newRequest feed.URL = true)
    (hdo : http.Do (fetchRequest feed md) = some resp) :
    (fetchFeed http feed md).metadata =
      { FeedID := md.FeedID
        ETag := if headerGet resp.Header "ETag" ≠ "" then headerGet resp.Header "ETag"
          else md.ETag
        LastModified :=
          if headerGet resp.Header "Last-Modified" ≠ "" then
            headerGet resp.Header "Last-Modified"
          else md.LastModified
        MaxAge := parseMaxAge (headerGet resp.Header "Cache-Control") 14400
        LastChecked := md.LastChecked } := by
  simp only [fetchFeed, hreq, hdo]
  by_cases h1 : headerGet resp.Header "ETag" = "" <;>
  by_cases h2 : headerGet resp.Header "Last-Modified" = "" <;>
  by_cases h3 : resp.StatusCode = 200 <;>
  by_cases h4 : resp.StatusCode = 304 <;>
  cases hb : resp.Body <;>
  simp [h1, h2, h3, h4]

theorem fetchFeed_status (http : HTTP) (feed : config.Feed) (md : db.Feed) (resp : Response)
    (hreq : http.newRequest feed.URL = true)
    (hdo : http.Do (fetchRequest feed md) = some resp) :
    (fetchFeed http feed md).httpStatus = resp.StatusCode ∧
    (fetchFeed http feed md).err =
      (if resp.StatusCode = 200 then
        (if resp.Body = none then some FetchError.parseFailed else none)
      else if resp.StatusCode = 304 then none
      else some (FetchError.unexpectedStatus resp.StatusCode)) ∧
    (fetchFeed http feed md).parsedFeed =
      (if resp.StatusCode = 200 then resp.Body else none) := by
  simp only [fetchFeed, hreq, hdo]
  by_cases h3 : resp.StatusCode = 200 <;>
  by_cases h4 : resp.StatusCode = 304 <;>
  cases hb : resp.Body <;>
  simp_all

/-- C10, as stated, fails: prior metadata with entity tag "abc" and a
last-modified value, and a 200 response that carries neither an ETag nor a
Last-Modified header. The claim wants both fields empty after the fetch;
`fetchFeed` keeps the prior values. -/
theorem fetchFeed_200_missing_header_counterexample :
    headerGet ([] : List (String × String)) "ETag" = "" ∧
    headerGet ([] : List (String × String)) "Last-Modified" = "" ∧
    (fetchFeed ⟨fun _ => true, fun _ => some ⟨200, [], some []⟩⟩ ⟨"f", "u", "F", 60, "stdout"⟩
      ⟨"f", "abc", "Mon, 01 Jan 2024 00:00:00 GMT", 3600, 100⟩).httpStatus = 200 ∧
    (fetchFeed ⟨fun _ => true, fun _ => some ⟨200, [], some []⟩⟩ ⟨"f", "u", "F", 60, "stdout"⟩
      ⟨"f", "abc", "Mon, 01 Jan 2024 00:00:00 GMT", 3600, 100⟩).err = none ∧
    (fetchFeed ⟨fun _ => true, fun _ => some ⟨200, [], some []⟩⟩ ⟨"f", "u", "F", 60, "stdout"⟩
      ⟨"f", "abc", "Mon, 01 Jan 2024 00:00:00 GMT", 3600, 100⟩).metadata.ETag = "abc" ∧
    (fetchFeed ⟨fun _ => true, fun _ => some ⟨200, [], some []⟩⟩ ⟨"f", "u", "F", 60, "stdout"⟩
      ⟨"f", "abc", "Mon, 01 Jan 2024 00:00:00 GMT", 3600, 100⟩).metadata.LastModified =
        "Mon, 01 Jan 2024 00:00:00 GMT" := by
  decide

/-- C10, amended: for every prior metadata and every HTTP 200 response, after
the fetch the entity tag of the metadata is the ETag header of the response
when that header is present (not empty) and the prior entity tag otherwise,
and the last-modified value is the Last-Modified header of the response when
present and the prior value otherwise: a header of the response replaces the
stored field, a missing header leaves it as it was. -/
theorem fetchFeed_200_headers (http : HTTP) (feed : config.Feed) (md : db.Feed)
    (resp : Response) (hreq : http.newRequest feed.URL = true)
    (hdo : http.Do (fetchRequest feed md) = some resp) (h200 : resp.StatusCode = 200) :
    (fetchFeed http feed md).httpStatus = 200 ∧
    (headerGet resp.Header "ETag" ≠ "" →
      (fetchFeed http feed md).metadata.ETag = headerGet resp.Header "ETag") ∧
    (headerGet resp.Header "ETag" = "" →
      (fetchFeed http feed md).metadata.ETag = md.ETag) ∧
    (headerGet resp.Header "Last-Modified" ≠ "" →
      (fetchFeed http feed md).metadata.LastModified = headerGet resp.Header "Last-Modified") ∧
    (headerGet resp.Header "Last-Modified" = "" →
      (fetchFeed http feed md).metadata.LastModified = md.LastModified) := by
  rw [fetchFeed_metadata http feed md resp hreq hdo,
    (fetchFeed_status http feed md resp hreq hdo).1]
  refine ⟨h200, ?_, ?_, ?_, ?_⟩ <;> intro h <;> simp [h]

theorem fetchFeed_200_headers_witness :
    (fetchFeed ⟨fun _ => true, fun _ => some ⟨200, [("ETag", "v2")], some []⟩⟩
        ⟨"f", "u", "F", 60, "stdout"⟩ ⟨"f", "v1", "Mon", 0, 100⟩).metadata.ETag = "v2" ∧
    (fetchFeed ⟨fun _ => true, fun _ => some ⟨200, [("ETag", "v2")], some []⟩⟩
        ⟨"f", "u", "F", 60, "stdout"⟩ ⟨"f", "v1", "Mon", 0, 100⟩).metadata.LastModified =
      "Mon" :=
  ⟨(fetchFeed_200_headers ⟨fun _ => true, fun _ => some ⟨200, [("ETag", "v2")], some []⟩⟩
      ⟨"f", "u", "F", 60, "stdout"⟩ ⟨"f", "v1", "Mon", 0, 100⟩ ⟨200, [("ETag", "v2")], some []⟩
      rfl rfl rfl).2.1 (by decide),
    (fetchFeed_200_headers ⟨fun _ => true, fun _ => some ⟨200, [("ETag", "v2")], some []⟩⟩
      ⟨"f", "u", "F", 60, "stdout"⟩ ⟨"f", "v1", "Mon", 0, 100⟩ ⟨200, [("ETag", "v2")], some []⟩
      rfl rfl rfl).2.2.2.2 (by decide)⟩

theorem fetchFeed_failure (http : HTTP) (feed : config.Feed) (md : db.Feed)
    (hfail : http.Do (fetchRequest feed md) = none ∨
      ∃ resp, http.Do (fetchRequest feed md) = some resp ∧
        resp.StatusCode ≠ 200 ∧ resp.StatusCode ≠ 304) :
    ∃ err, (fetchFeed http feed md).err = some err := by
  by_cases hreq : http.newRequest feed.URL = true
  · rcases hfail with hnone | ⟨resp, hdo, h200, h304⟩
    · exact ⟨FetchError.requestFailed, by simp [fetchFeed, hreq, hnone]⟩
    · refine ⟨FetchError.unexpectedStatus resp.StatusCode, ?_⟩
      rw [(fetchFeed_status http feed md resp hreq hdo).2.1]
      simp [h200, h304]
  · exact ⟨FetchError.createRequest, by simp [fetchFeed, hreq]⟩

/-- C8, as stated, fails: the feed "f" has a stored row with last-checked time
100, the server answers 500, the attempt is made at time 200. `processFeed`
returns an error, and after the worker the stored last-checked time is still
100, not 200. -/
theorem processFeed_failure_counterexample :
    (processFeed ⟨[]⟩ ⟨fun _ => true, fun _ => some ⟨500, [], none⟩⟩ 200
      ⟨"f", "u", "F", 60, "stdout"⟩ ⟨⟨[⟨"f", "abc", "", 0, 100⟩], []⟩, [], false⟩).1 =
        some (FetchError.unexpectedStatus 500) ∧
    (feedWorker ⟨[]⟩ ⟨fun _ => true, fun _ => some ⟨500, [], none⟩⟩ 200
      ⟨"f", "u", "F", 60, "stdout"⟩ ⟨⟨[⟨"f", "abc", "", 0, 100⟩], []⟩, [], false⟩).db.GetFeed "f" =
        some ⟨"f", "abc", "", 0, 100⟩ := by
  decide

/-- C8, amended: for every feed cycle in which the fetch fails with a network or
timeout error or with an HTTP status other than 200 and 304, `processFeed`
returns an error and writes nothing: the state after the cycle (stored
metadata with its last-checked time, ledger, calls made) is the state before
it, also after the worker that called `processFeed` has logged the error. -/
theorem processFeed_fetch_failure (s : Service) (http : HTTP) (now : Int)
    (feed : config.Feed) (st : State)
    (hfail : http.Do (fetchRequest feed (getFeedMetadata st.db feed).1) = none ∨
      ∃ resp, http.Do (fetchRequest feed (getFeedMetadata st.db feed).1) = some resp ∧
        resp.StatusCode ≠ 200 ∧ resp.StatusCode ≠ 304) :
    (processFeed s http now feed st).1 ≠ none ∧
    (processFeed s http now feed st).2 = st ∧
    feedWorker s http now feed st = st ∧
    (feedWorker s http now feed st).db.GetFeed feed.ID = st.db.GetFeed feed.ID := by
  obtain ⟨err, herr⟩ := fetchFeed_failure http feed _ hfail
  have h : processFeed s http now feed st = (some err, st) := by
    simp only [processFeed, herr]
  simp [feedWorker, h]

theorem processFeed_fetch_failure_witness :
    feedWorker ⟨[]⟩ ⟨fun _ => true, fun _ => none⟩ 200 ⟨"f", "u", "F", 60, "stdout"⟩
        ⟨⟨[⟨"f", "abc", "", 0, 100⟩], []⟩, [], false⟩ =
      ⟨⟨[⟨"f", "abc", "", 0, 100⟩], []⟩, [], false⟩ :=
  (processFeed_fetch_failure ⟨[]⟩ ⟨fun _ => true, fun _ => none⟩ 200
    ⟨"f", "u", "F", 60, "stdout"⟩ ⟨⟨[⟨"f", "abc", "", 0, 100⟩], []⟩, [], false⟩
    (Or.inl rfl)).2.2.1

/-- C9, as stated, fails: the feed "f" has the stored row (entity tag "abc",
last-modified "Mon", cache lifetime 3600, last-checked 100) and the server
answers 304 with an ETag header "xyz" and no Cache-Control header, at time
200. The row stored after `processFeed` has entity tag "xyz" and cache
lifetime 0. -/
theorem processFeed_304_counterexample :
    (processFeed ⟨[]⟩ ⟨fun _ => true, fun _ => some ⟨304, [("ETag", "xyz")], none⟩⟩ 200
      ⟨"f", "u", "F", 60, "stdout"⟩ ⟨⟨[⟨"f", "abc", "Mon", 3600, 100⟩], []⟩, [], false⟩).1 =
        none ∧
    (processFeed ⟨[]⟩ ⟨fun _ => true, fun _ => some ⟨304, [("ETag", "xyz")], none⟩⟩ 200
      ⟨"f", "u", "F", 60, "stdout"⟩
      ⟨⟨[⟨"f", "abc", "Mon", 3600, 100⟩], []⟩, [], false⟩).2.db.GetFeed "f" =
        some ⟨"f", "xyz", "Mon", 0, 200⟩ := by
  decide

/-- C9, amended: for every feed with a stored metadata row and every HTTP 304
response, the row stored after `processFeed` has the ETag header of the
response as entity tag when that header is present and the prior entity tag
otherwise, the Last-Modified header of the response as last-modified value
when present and the prior value otherwise, the cache lifetime
`parseMaxAge` computes from the Cache-Control header of the response with
maximum 14400 (0 when the header is missing), and last-checked set to the time
of the attempt; no error is returned, no `Notify` or `LogArticle` call is made
and the ledger is unchanged. -/
theorem processFeed_304 (s : Service) (http : HTTP) (now : Int) (feed : config.Feed)
    (st : State) (md : db.Feed) (resp : Response)
    (hrow : st.db.GetFeed feed.ID = some md)
    (hreq : http.newRequest feed.URL = true)
    (hdo : http.Do (fetchRequest feed md) = some resp)
    (h304 : resp.StatusCode = 304) :
    (processFeed s http now feed st).1 = none ∧
    (processFeed s http now feed st).2.db.GetFeed feed.ID =
      some
        { FeedID := feed.ID
          ETag := if headerGet resp.Header "ETag" ≠ "" then headerGet resp.Header "ETag"
            else md.ETag
          LastModified :=
            if headerGet resp.Header "Last-Modified" ≠ "" then
              headerGet resp.Header "Last-Modified"
            else md.LastModified
          MaxAge := parseMaxAge (headerGet resp.Header "Cache-Control") 14400
          LastChecked := now } ∧
    (processFeed s http now feed st).2.trace = st.trace ∧
    (processFeed s http now feed st).2.db.articles = st.db.articles ∧
    (processFeed s http now feed st).2.crashed = st.crashed := by
  have hid := GetFeed_FeedID st.db feed.ID md hrow
  have hmeta := fetchFeed_metadata http feed md resp hreq hdo
  obtain ⟨hstatus, herr, -⟩ := fetchFeed_status http feed md resp hreq hdo
  have h200 : resp.StatusCode ≠ 200 := by rw [h304]; decide
  rw [if_neg h200, if_pos h304] at herr
  rw [h304] at hstatus
  have h : processFeed s http now feed st =
      (none, { st with db := st.db.UpdateFeed { (fetchFeed http feed md).metadata with
        LastChecked := now } }) := by
    simp only [processFeed, getFeedMetadata, hrow, herr, hstatus, if_true]
  rw [h, hmeta]
  refine ⟨rfl, ?_, rfl, UpdateFeed_articles _ _, rfl⟩
  have := GetFeed_UpdateFeed st.db
    { FeedID := md.FeedID
      ETag := if headerGet resp.Header "ETag" ≠ "" then headerGet resp.Header "ETag"
        else md.ETag
      LastModified :=
        if headerGet resp.Header "Last-Modified" ≠ "" then
          headerGet resp.Header "Last-Modified"
        else md.LastModified
      MaxAge := parseMaxAge (headerGet resp.Header "Cache-Control") 14400
      LastChecked := now }
  simp only [hid] at this
  simpa [hid] using this

theorem processFeed_304_witness :
    (processFeed ⟨[]⟩ ⟨fun _ => true, fun _ => some ⟨304, [("Cache-Control", "max-age=600")], none⟩⟩
      200 ⟨"f", "u", "F", 60, "stdout"⟩
      ⟨⟨[⟨"f", "abc", "Mon", 3600, 100⟩], []⟩, [], false⟩).2.db.GetFeed "f" =
        some
          { FeedID := "f"
            ETag := if headerGet [("Cache-Control", "max-age=600")] "ETag" ≠ "" then
              headerGet [("Cache-Control", "max-age=600")] "ETag" else "abc"
            LastModified :=
              if headerGet [("Cache-Control", "max-age=600")] "Last-Modified" ≠ "" then
                headerGet [("Cache-Control", "max-age=600")] "Last-Modified"
              else "Mon"
            MaxAge := parseMaxAge (headerGet [("Cache-Control", "max-age=600")] "Cache-Control")
              14400
            LastChecked := 200 } :=
  (processFeed_304 ⟨[]⟩
    ⟨fun _ => true, fun _ => some ⟨304, [("Cache-Control", "max-age=600")], none⟩⟩ 200
    ⟨"f", "u", "F", 60, "stdout"⟩ ⟨⟨[⟨"f", "abc", "Mon", 3600, 100⟩], []⟩, [], false⟩
    ⟨"f", "abc", "Mon", 3600, 100⟩ ⟨304, [("Cache-Control", "max-age=600")], none⟩
    rfl rfl rfl rfl).2.1

/-! ## First run -/

theorem logItems_trace (feed : config.Feed) (items : List gofeed.Item) (st : State) :
    (logItems feed items st).trace = st.trace ++ baselineCalls feed items := by
  induction items generalizing st with
  | nil => simp [logItems, baselineCalls]
  | cons x xs ih =>
    simp only [logItems]
    split_ifs with hx
    · rw [ih]
      simp [baselineCalls, hx]
    · rw [ih]
      simp [baselineCalls, hx]

theorem logItems_feeds (feed : config.Feed) (items : List gofeed.Item) (st : State) :
    (logItems feed items st).db.feeds = st.db.feeds := by
  induction items generalizing st with
  | nil => rfl
  | cons x xs ih =>
    simp only [logItems]
    split_ifs with hx
    · exact ih st
    · rw [ih]
      exact LogArticle_feeds _ _ _

theorem logItems_crashed (feed : config.Feed) (items : List gofeed.Item) (st : State) :
    (logItems feed items st).crashed = st.crashed := by
  induction items generalizing st with
  | nil => rfl
  | cons x xs ih =>
    simp only [logItems]
    split_ifs with hx
    · exact ih st
    · rw [ih]

theorem logItems_mono (feed : config.Feed) (items : List gofeed.Item) (st : State)
    (r : db.Article) (h : r ∈ st.db.articles) : r ∈ (logItems feed items st).db.articles := by
  induction items generalizing st with
  | nil => exact h
  | cons x xs ih =>
    simp only [logItems]
    split_ifs with hx
    · exact ih st h
    · exact ih _ (LogArticle_mono _ _ _ _ h)

theorem logItems_mem (feed : config.Feed) (items : List gofeed.Item) (st : State)
    (item : gofeed.Item) (hmem : item ∈ items) (hid : getArticleID item ≠ "") :
    (⟨feed.ID, getArticleID item⟩ : db.Article) ∈ (logItems feed items st).db.articles := by
  induction items generalizing st with
  | nil => simp at hmem
  | cons x xs ih =>
    simp only [logItems]
    rcases List.mem_cons.mp hmem with rfl | hin
    · rw [if_neg hid]
      exact logItems_mono _ _ _ _ (LogArticle_mem _ _ _)
    · split_ifs with hx
      · exact ih st hin
      · exact ih _ hin

theorem notifyCalls_append_baseline (t : List Event) (feed : config.Feed)
    (items : List gofeed.Item) :
    notifyCalls (t ++ baselineCalls feed items) = notifyCalls t := by
  simp [notifyCalls, baselineCalls, List.filter_map, Function.comp_def]

/-- C2: for every feed without a stored metadata row and every item list of a
successful fetch (status 200, body parsed), `processFeed` returns no error and
makes no `Notify` call: the only calls it adds are the `LogArticle` calls of
the items with an identity; afterwards the ledger holds the pair (feed id,
`getArticleID` item) for every item with a non-empty identity, and a metadata
row for the feed exists. -/
theorem processFeed_firstRun (s : Service) (http : HTTP) (now : Int) (feed : config.Feed)
    (st : State) (resp : Response) (items : List gofeed.Item)
    (hfirst : st.db.GetFeed feed.ID = none)
    (hreq : http.newRequest feed.URL = true)
    (hdo : http.Do (fetchRequest feed ⟨feed.ID, "", "", 0, 0⟩) = some resp)
    (h200 : resp.StatusCode = 200)
    (hbody : resp.Body = some items) :
    (processFeed s http now feed st).1 = none ∧
    (processFeed s http now feed st).2.trace = st.trace ++ baselineCalls feed items ∧
    notifyCalls (processFeed s http now feed st).2.trace = notifyCalls st.trace ∧
    (∀ item ∈ items, getArticleID item ≠ "" →
      (⟨feed.ID, getArticleID item⟩ : db.Article) ∈
        (processFeed s http now feed st).2.db.articles) ∧
    (∃ row, (processFeed s http now feed st).2.db.GetFeed feed.ID = some row ∧
      row.LastChecked = now) := by
  have hmeta := fetchFeed_metadata http feed ⟨feed.ID, "", "", 0, 0⟩ resp hreq hdo
  obtain ⟨hstatus, herr, hparsed⟩ :=
    fetchFeed_status http feed ⟨feed.ID, "", "", 0, 0⟩ resp hreq hdo
  rw [if_pos h200, hbody] at herr hparsed
  rw [h200] at hstatus
  have h : processFeed s http now feed st =
      (none, logItems feed items
        ⟨st.db.UpdateFeed
          { (fetchFeed http feed ⟨feed.ID, "", "", 0, 0⟩).metadata with LastChecked := now },
          st.trace, st.crashed⟩) := by
    simp only [processFeed, getFeedMetadata, hfirst, hstatus, hparsed]
    rw [herr]
    simp
  rw [h]
  refine ⟨rfl, ?_, ?_, ?_, ?_⟩
  · rw [logItems_trace]
  · rw [logItems_trace]
    exact notifyCalls_append_baseline _ _ _
  · intro item hmem hid
    exact logItems_mem feed items _ item hmem hid
  · refine ⟨{ (fetchFeed http feed ⟨feed.ID, "", "", 0, 0⟩).metadata with LastChecked := now },
      ?_, rfl⟩
    have hg := GetFeed_UpdateFeed st.db
      { (fetchFeed http feed ⟨feed.ID, "", "", 0, 0⟩).metadata with LastChecked := now }
    have hfid : ({ (fetchFeed http feed ⟨feed.ID, "", "", 0, 0⟩).metadata with
        LastChecked := now } : db.Feed).FeedID = feed.ID := by
      rw [hmeta]
    rw [hfid] at hg
    unfold db.DB.GetFeed at hg ⊢
    rw [logItems_feeds]
    exact hg

theorem processFeed_firstRun_witness :
    (processFeed ⟨[]⟩
      ⟨fun _ => true, fun _ => some ⟨200, [], some [⟨"g1", "", ""⟩, ⟨"", "", ""⟩, ⟨"", "l3", "t3"⟩]⟩⟩
      200 ⟨"f", "u", "F", 60, "stdout"⟩ ⟨⟨[], []⟩, [], false⟩).2.trace =
        [] ++ baselineCalls ⟨"f", "u", "F", 60, "stdout"⟩
          [⟨"g1", "", ""⟩, ⟨"", "", ""⟩, ⟨"", "l3", "t3"⟩] :=
  (processFeed_firstRun ⟨[]⟩
    ⟨fun _ => true, fun _ => some ⟨200, [], some [⟨"g1", "", ""⟩, ⟨"", "", ""⟩, ⟨"", "l3", "t3"⟩]⟩⟩
    200 ⟨"f", "u", "F", 60, "stdout"⟩ ⟨⟨[], []⟩, [], false⟩
    ⟨200, [], some [⟨"g1", "", ""⟩, ⟨"", "", ""⟩, ⟨"", "l3", "t3"⟩]⟩
    [⟨"g1", "", ""⟩, ⟨"", "", ""⟩, ⟨"", "l3", "t3"⟩] rfl rfl rfl rfl rfl).2.1

/-! ## Steady state -/

theorem processArticlesLoop_append (n : Notifier) (feed : config.Feed)
    (pre post : List gofeed.Item) (st : State) :
    processArticlesLoop (some n) feed (pre ++ post) st =
      processArticlesLoop (some n) feed post (processArticlesLoop (some n) feed pre st) := by
  induction pre generalizing st with
  | nil => rfl
  | cons x xs ih =>
    simp only [List.cons_append, processArticlesLoop]
    split_ifs
    · exact ih st
    · exact ih _
    · exact ih _
    · exact ih st

theorem LogArticle_new (d : db.DB) (f a : String) (hnew : d.IsArticleNew f a = true) :
    d.LogArticle f a = ⟨d.feeds, d.articles ++ [⟨f, a⟩]⟩ := by
  unfold db.DB.IsArticleNew at hnew
  unfold db.DB.LogArticle
  rw [if_neg (by simpa using hnew)]

/-- C3: with the notifier of the feed resolved, for every item list, every
item in it and every behaviour of the notifier: `processArticles` returns no
error; the state after the whole list is the state reached by processing the
items before the item, then the item, then the items after it (list order, and
the later items are processed whatever happened at the item); the item causes
a `Notify` call exactly when its identity is not empty and the ledger reports
it new at that moment, else it changes nothing; a successful call is followed
by the insert of the identity into the ledger; a failed call leaves the
database as it was. -/
theorem processArticles_spec (s : Service) (n : Notifier) (feed : config.Feed)
    (hn : getNotifierForFeed s feed = some n)
    (pre : List gofeed.Item) (item : gofeed.Item) (post : List gofeed.Item) (st : State) :
    (processArticles s feed (pre ++ item :: post) st).1 = none ∧
    (processArticles s feed (pre ++ item :: post) st).2 =
      (processArticles s feed post (processArticles s feed (pre ++ [item]) st).2).2 ∧
    ((getArticleID item = "" ∨
        (processArticles s feed pre st).2.db.IsArticleNew feed.ID (getArticleID item) = false) →
      (processArticles s feed (pre ++ [item]) st).2 = (processArticles s feed pre st).2) ∧
    (getArticleID item ≠ "" →
      (processArticles s feed pre st).2.db.IsArticleNew feed.ID (getArticleID item) = true →
      (n (processArticles s feed pre st).2.trace feed item = true →
        (processArticles s feed (pre ++ [item]) st).2 =
          ⟨⟨(processArticles s feed pre st).2.db.feeds,
              (processArticles s feed pre st).2.db.articles ++ [⟨feed.ID, getArticleID item⟩]⟩,
            (processArticles s feed pre st).2.trace ++
              [Event.notify feed.ID (getArticleID item) true,
                Event.logArticle feed.ID (getArticleID item)],
            (processArticles s feed pre st).2.crashed⟩) ∧
      (n (processArticles s feed pre st).2.trace feed item = false →
        (processArticles s feed (pre ++ [item]) st).2 =
          ⟨(processArticles s feed pre st).2.db,
            (processArticles s feed pre st).2.trace ++
              [Event.notify feed.ID (getArticleID item) false],
            (processArticles s feed pre st).2.crashed⟩)) := by
  simp only [processArticles, hn]
  refine ⟨trivial, ?_, ?_, ?_⟩
  · rw [processArticlesLoop_append n feed pre (item :: post) st,
      processArticlesLoop_append n feed pre [item] st]
    exact processArticlesLoop_append n feed [item] post _
  · intro h
    rw [processArticlesLoop_append n feed pre [item] st]
    rcases h with h | h
    · simp [processArticlesLoop, h]
    · simp [processArticlesLoop, h]
  · intro hid hnew
    rw [processArticlesLoop_append n feed pre [item] st]
    refine ⟨?_, ?_⟩
    · intro hok
      simp [processArticlesLoop, hid, hnew, hok, LogArticle_new _ _ _ hnew]
    · intro hfail
      simp [processArticlesLoop, hid, hnew, hfail]

theorem processArticles_spec_witness :
    getNotifierForFeed ⟨[("stdout", fun _ _ item => item.GUID != "bad")]⟩
        ⟨"f", "u", "F", 60, "stdout"⟩ = some (fun _ _ item => item.GUID != "bad") ∧
    (processArticles ⟨[("stdout", fun _ _ item => item.GUID != "bad")]⟩
        ⟨"f", "u", "F", 60, "stdout"⟩ ([⟨"a", "", ""⟩] ++ ⟨"bad", "", ""⟩ :: [⟨"c", "", ""⟩])
        ⟨⟨[], []⟩, [], false⟩).2 =
      (processArticles ⟨[("stdout", fun _ _ item => item.GUID != "bad")]⟩
        ⟨"f", "u", "F", 60, "stdout"⟩ [⟨"c", "", ""⟩]
        (processArticles ⟨[("stdout", fun _ _ item => item.GUID != "bad")]⟩
          ⟨"f", "u", "F", 60, "stdout"⟩ ([⟨"a", "", ""⟩] ++ [⟨"bad", "", ""⟩])
          ⟨⟨[], []⟩, [], false⟩).2).2 ∧
    (processArticles ⟨[("stdout", fun _ _ item => item.GUID != "bad")]⟩
        ⟨"f", "u", "F", 60, "stdout"⟩ ([⟨"a", "", ""⟩] ++ ⟨"bad", "", ""⟩ :: [⟨"c", "", ""⟩])
        ⟨⟨[], []⟩, [], false⟩).2 =
      ⟨⟨[], [⟨"f", "a"⟩, ⟨"f", "c"⟩]⟩,
        [Event.notify "f" "a" true, Event.logArticle "f" "a", Event.notify "f" "bad" false,
          Event.notify "f" "c" true, Event.logArticle "f" "c"], false⟩ :=
  ⟨rfl,
    (processArticles_spec ⟨[("stdout", fun _ _ item => item.GUID != "bad")]⟩
      (fun _ _ item => item.GUID != "bad") ⟨"f", "u", "F", 60, "stdout"⟩ rfl
      [⟨"a", "", ""⟩] ⟨"bad", "", ""⟩ [⟨"c", "", ""⟩] ⟨⟨[], []⟩, [], false⟩).2.1,
    by decide⟩

/-! ## At most one notification per article -/

theorem replay_append (ledger : List db.Article) (t u : List Event) :
    replay ledger (t ++ u) = replay (replay ledger t) u := by
  induction t generalizing ledger with
  | nil => rfl
  | cons e es ih =>
    cases e with
    | notify f a ok => simpa [replay] using ih ledger
    | logArticle f a => simpa [replay] using ih _

theorem replay_mono (ledger : List db.Article) (t : List Event) (p : db.Article)
    (h : p ∈ ledger) : p ∈ replay ledger t := by
  induction t generalizing ledger with
  | nil => exact h
  | cons e es ih =>
    cases e with
    | notify f a ok => exact ih ledger h
    | logArticle f a =>
      simp only [replay]
      apply ih
      split_ifs
      · exact h
      · simp [h]

theorem successes_append (t u : List Event) :
    successes (t ++ u) = successes t ++ successes u := by
  induction t with
  | nil => rfl
  | cons e es ih =>
    cases e with
    | notify f a ok =>
      cases ok with
      | true => simp [successes, ih]
      | false => simp [successes, ih]
    | logArticle f a => simp [successes, ih]

theorem calls_append (ledger0 : List db.Article) (t u : List Event)
    (ht : ∀ (i : Nat) (f a : String) (ok : Bool), t[i]? = some (Event.notify f a ok) →
      (⟨f, a⟩ : db.Article) ∉ replay ledger0 (t.take i) ∧
      (ok = true → t[i + 1]? = some (Event.logArticle f a)))
    (hc : ∀ (j : Nat) (f a : String) (ok : Bool), u[j]? = some (Event.notify f a ok) →
      (⟨f, a⟩ : db.Article) ∉ replay ledger0 (t ++ u.take j) ∧
      (ok = true → u[j + 1]? = some (Event.logArticle f a))) :
    ∀ (i : Nat) (f a : String) (ok : Bool), (t ++ u)[i]? = some (Event.notify f a ok) →
      (⟨f, a⟩ : db.Article) ∉ replay ledger0 ((t ++ u).take i) ∧
      (ok = true → (t ++ u)[i + 1]? = some (Event.logArticle f a)) := by
  intro i f a ok hi
  by_cases hlt : i < t.length
  · rw [List.getElem?_append_left hlt] at hi
    obtain ⟨h1, h2⟩ := ht i f a ok hi
    refine ⟨?_, ?_⟩
    · rw [List.take_append_of_le_length (le_of_lt hlt)]
      exact h1
    · intro hok
      have h3 := h2 hok
      have hlt2 : i + 1 < t.length := by
        by_contra hge
        rw [List.getElem?_eq_none (not_lt.mp hge)] at h3
        exact Option.noConfusion h3
      rw [List.getElem?_append_left hlt2]
      exact h3
  · have hge : t.length ≤ i := not_lt.mp hlt
    obtain ⟨j, rfl⟩ := Nat.exists_eq_add_of_le hge
    rw [List.getElem?_append_right hge, Nat.add_sub_cancel_left] at hi
    obtain ⟨h1, h2⟩ := hc j f a ok hi
    refine ⟨?_, ?_⟩
    · rw [List.take_append]
      exact h1
    · intro hok
      have hge2 : t.length ≤ t.length + j + 1 := by omega
      rw [List.getElem?_append_right hge2]
      have : t.length + j + 1 - t.length = j + 1 := by omega
      rw [this]
      exact h2 hok

theorem LogArticle_articles (d : db.DB) (f a : String) :
    (d.LogArticle f a).articles =
      if d.articles.contains ⟨f, a⟩ then d.articles else d.articles ++ [⟨f, a⟩] := by
  unfold db.DB.LogArticle
  split_ifs <;> rfl

theorem LogArticle_nodup (d : db.DB) (f a : String) (h : d.articles.Nodup) :
    (d.LogArticle f a).articles.Nodup := by
  rw [LogArticle_articles]
  split_ifs with hc
  · exact h
  · have hnot : (⟨f, a⟩ : db.Article) ∉ d.articles := by simpa using hc
    rw [List.nodup_append]
    refine ⟨h, List.nodup_singleton _, ?_⟩
    intro x hx hy
    rw [List.mem_singleton] at hy
    exact hnot (hy ▸ hx)

theorem not_mem_of_isArticleNew (d : db.DB) (f a : String)
    (hnew : d.IsArticleNew f a = true) : (⟨f, a⟩ : db.Article) ∉ d.articles := by
  unfold db.DB.IsArticleNew at hnew
  simpa using hnew

theorem LedgerInv_init (d0 : db.DB) (hkey : d0.articles.Nodup) :
    LedgerInv d0.articles ⟨d0, [], false⟩ :=
  ⟨rfl, by intro i f a ok h; simp at h, List.nodup_nil, by intro p hp; simp [successes] at hp,
    hkey⟩

theorem LedgerInv_crash (ledger0 : List db.Article) (st : State)
    (h : LedgerInv ledger0 st) : LedgerInv ledger0 { st with crashed := true } :=
  ⟨h.ledger, h.calls, h.once, h.recorded, h.key⟩

theorem LedgerInv_log (ledger0 : List db.Article) (st : State) (f a : String)
    (h : LedgerInv ledger0 st) :
    LedgerInv ledger0
      ⟨st.db.LogArticle f a, st.trace ++ [Event.logArticle f a], st.crashed⟩ := by
  refine ⟨?_, ?_, ?_, ?_, ?_⟩
  · show (st.db.LogArticle f a).articles = replay ledger0 (st.trace ++ [Event.logArticle f a])
    rw [replay_append, ← h.ledger, LogArticle_articles]
    rfl
  · apply calls_append ledger0 st.trace _ h.calls
    intro j f1 a1 ok hj
    match j with
    | 0 => simp at hj
    | j + 1 => simp at hj
  · show (successes (st.trace ++ [Event.logArticle f a])).Nodup
    rw [successes_append]
    simpa [successes] using h.once
  · intro p hp
    have hp2 : p ∈ successes st.trace := by
      have : p ∈ successes (st.trace ++ [Event.logArticle f a]) := hp
      rw [successes_append] at this
      simpa [successes] using this
    exact ⟨LogArticle_mono _ _ _ _ (h.recorded p hp2).1, (h.recorded p hp2).2⟩
  · exact LogArticle_nodup _ _ _ h.key

theorem LedgerInv_fail (ledger0 : List db.Article) (st : State) (f a : String)
    (h : LedgerInv ledger0 st) (hnew : st.db.IsArticleNew f a = true) :
    LedgerInv ledger0 ⟨st.db, st.trace ++ [Event.notify f a false], st.crashed⟩ := by
  have hnot := not_mem_of_isArticleNew _ _ _ hnew
  refine ⟨?_, ?_, ?_, ?_, h.key⟩
  · show st.db.articles = replay ledger0 (st.trace ++ [Event.notify f a false])
    rw [replay_append, ← h.ledger]
    rfl
  · apply calls_append ledger0 st.trace _ h.calls
    intro j f1 a1 ok hj
    match j with
    | 0 =>
      simp only [List.getElem?_cons_zero, Option.some.injEq, Event.notify.injEq] at hj
      obtain ⟨rfl, rfl, rfl⟩ := hj
      refine ⟨?_, by intro hf; exact absurd hf (by decide)⟩
      simpa [← h.ledger] using hnot
    | j + 1 => simp at hj
  · show (successes (st.trace ++ [Event.notify f a false])).Nodup
    rw [successes_append]
    simpa [successes] using h.once
  · intro p hp
    have hp2 : p ∈ successes st.trace := by
      have : p ∈ successes (st.trace ++ [Event.notify f a false]) := hp
      rw [successes_append] at this
      simpa [successes] using this
    exact h.recorded p hp2

theorem LedgerInv_ok (ledger0 : List db.Article) (st : State) (f a : String)
    (h : LedgerInv ledger0 st) (hnew : st.db.IsArticleNew f a = true) :
    LedgerInv ledger0
      ⟨st.db.LogArticle f a,
        st.trace ++ [Event.notify f a true, Event.logArticle f a], st.crashed⟩ := by
  have hnot := not_mem_of_isArticleNew _ _ _ hnew
  refine ⟨?_, ?_, ?_, ?_, LogArticle_nodup _ _ _ h.key⟩
  · show (st.db.LogArticle f a).articles =
      replay ledger0 (st.trace ++ [Event.notify f a true, Event.logArticle f a])
    rw [replay_append, ← h.ledger, LogArticle_articles]
    rfl
  · apply calls_append ledger0 st.trace _ h.calls
    intro j f1 a1 ok hj
    match j with
    | 0 =>
      simp only [List.getElem?_cons_zero, Option.some.injEq, Event.notify.injEq] at hj
      obtain ⟨rfl, rfl, rfl⟩ := hj
      refine ⟨?_, by intro _; rfl⟩
      simpa [← h.ledger] using hnot
    | 1 => simp at hj
    | j + 2 => simp at hj
  · show (successes (st.trace ++ [Event.notify f a true, Event.logArticle f a])).Nodup
    rw [successes_append]
    have hs : successes [Event.notify f a true, Event.logArticle f a] = [⟨f, a⟩] := rfl
    rw [hs, List.nodup_append]
    refine ⟨h.once, List.nodup_singleton _, ?_⟩
    intro x hx hy
    rw [List.mem_singleton] at hy
    exact hnot (hy ▸ (h.recorded x hx).1)
  · intro p hp
    have hp2 : p ∈ successes st.trace ∨ p = ⟨f, a⟩ := by
      have : p ∈ successes (st.trace ++ [Event.notify f a true, Event.logArticle f a]) := hp
      rw [successes_append] at this
      simpa [successes] using this
    rcases hp2 with hp2 | rfl
    · exact ⟨LogArticle_mono _ _ _ _ (h.recorded p hp2).1, (h.recorded p hp2).2⟩
    · refine ⟨LogArticle_mem _ _ _, ?_⟩
      intro h0
      apply hnot
      rw [h.ledger]
      exact replay_mono _ _ _ h0

theorem logItems_inv (ledger0 : List db.Article) (feed : config.Feed)
    (items : List gofeed.Item) (st : State) (h : LedgerInv ledger0 st) :
    LedgerInv ledger0 (logItems feed items st) := by
  induction items generalizing st with
  | nil => exact h
  | cons x xs ih =>
    simp only [logItems]
    split_ifs with hx
    · exact ih st h
    · exact ih _ (LedgerInv_log ledger0 st _ _ h)

theorem processArticlesLoop_inv (ledger0 : List db.Article) (n : Option Notifier)
    (feed : config.Feed) (items : List gofeed.Item) (st : State) (h : LedgerInv ledger0 st) :
    LedgerInv ledger0 (processArticlesLoop n feed items st) := by
  induction items generalizing st with
  | nil => exact h
  | cons x xs ih =>
    simp only [processArticlesLoop]
    split_ifs with hx hnew
    · exact ih st h
    · cases n with
      | none => exact LedgerInv_crash ledger0 st h
      | some f =>
        simp only
        split_ifs
        · exact ih _ (LedgerInv_ok ledger0 st _ _ h hnew)
        · exact ih _ (LedgerInv_fail ledger0 st _ _ h hnew)
    · exact ih st h

theorem runPass_inv (ledger0 : List db.Article) (s : Service) (p : Pass) (st : State)
    (h : LedgerInv ledger0 st) : LedgerInv ledger0 (runPass s p st) := by
  unfold runPass
  split_ifs
  · exact h
  · cases p with
    | steady feed items => exact processArticlesLoop_inv ledger0 _ feed items st h
    | firstRun feed items => exact logItems_inv ledger0 feed items st h

theorem runPasses_inv (ledger0 : List db.Article) (s : Service) (passes : List Pass)
    (st : State) (h : LedgerInv ledger0 st) : LedgerInv ledger0 (runPasses s passes st) := by
  induction passes generalizing st with
  | nil => exact h
  | cons p ps ih => exact ih _ (runPass_inv ledger0 s p st h)

theorem LogArticle_idempotent (d : db.DB) (f a : String) :
    (d.LogArticle f a).LogArticle f a = d.LogArticle f a := by
  have hmem := LogArticle_mem d f a
  generalize d.LogArticle f a = d1 at hmem
  unfold db.DB.LogArticle
  rw [if_pos (by simpa using hmem)]

/-- C1: for every initial ledger (a table with its primary key: no pair twice),
every service and notifier behaviour, and every sequence of passes
(`processArticles` in steady state, `logItems` on first run) over any feeds and
item lists: each `Notify` call in the trace was made for a pair absent from the
ledger as it stood at that moment, and each successful one is followed at once
by the `LogArticle` call of the same pair; the final ledger is the initial one
with the logged pairs inserted; hence no pair is notified successfully more
than once, no pair of the initial ledger is notified successfully, and no pair
is stored more than once. `LogArticle` is idempotent. -/
theorem ledger_at_most_once (s : Service) (d0 : db.DB) (hkey : d0.articles.Nodup)
    (passes : List Pass) :
    (∀ (i : Nat) (f a : String) (ok : Bool),
      (runPasses s passes ⟨d0, [], false⟩).trace[i]? = some (Event.notify f a ok) →
        (⟨f, a⟩ : db.Article) ∉
          replay d0.articles ((runPasses s passes ⟨d0, [], false⟩).trace.take i) ∧
        (ok = true →
          (runPasses s passes ⟨d0, [], false⟩).trace[i + 1]? = some (Event.logArticle f a))) ∧
    (runPasses s passes ⟨d0, [], false⟩).db.articles =
      replay d0.articles (runPasses s passes ⟨d0, [], false⟩).trace ∧
    (∀ p : db.Article, (successes (runPasses s passes ⟨d0, [], false⟩).trace).count p ≤ 1) ∧
    (∀ p ∈ d0.articles, p ∉ successes (runPasses s passes ⟨d0, [], false⟩).trace) ∧
    (∀ p : db.Article, (runPasses s passes ⟨d0, [], false⟩).db.articles.count p ≤ 1) ∧
    (∀ (d : db.DB) (f a : String), (d.LogArticle f a).LogArticle f a = d.LogArticle f a) := by
  have h := runPasses_inv d0.articles s passes ⟨d0, [], false⟩ (LedgerInv_init d0 hkey)
  refine ⟨h.calls, h.ledger, ?_, ?_, ?_, LogArticle_idempotent⟩
  · exact List.nodup_iff_count_le_one.mp h.once
  · intro p hp hs
    exact (h.recorded p hs).2 hp
  · exact List.nodup_iff_count_le_one.mp h.key

theorem ledger_at_most_once_witness :
    ([⟨"f", "old"⟩] : List db.Article).Nodup ∧
    (∀ p : db.Article,
      (successes (runPasses ⟨[("stdout", fun t _ _ => t.length != 2)]⟩
        [Pass.steady ⟨"f", "u", "F", 60, "stdout"⟩ [⟨"old", "", ""⟩, ⟨"a", "", ""⟩, ⟨"b", "", ""⟩],
          Pass.steady ⟨"f", "u", "F", 60, "stdout"⟩ [⟨"a", "", ""⟩, ⟨"b", "", ""⟩],
          Pass.firstRun ⟨"g", "u", "G", 60, "stdout"⟩ [⟨"a", "", ""⟩, ⟨"a", "", ""⟩]]
        ⟨⟨[], [⟨"f", "old"⟩]⟩, [], false⟩).trace).count p ≤ 1) ∧
    (runPasses ⟨[("stdout", fun t _ _ => t.length != 2)]⟩
        [Pass.steady ⟨"f", "u", "F", 60, "stdout"⟩ [⟨"old", "", ""⟩, ⟨"a", "", ""⟩, ⟨"b", "", ""⟩],
          Pass.steady ⟨"f", "u", "F", 60, "stdout"⟩ [⟨"a", "", ""⟩, ⟨"b", "", ""⟩],
          Pass.firstRun ⟨"g", "u", "G", 60, "stdout"⟩ [⟨"a", "", ""⟩, ⟨"a", "", ""⟩]]
        ⟨⟨[], [⟨"f", "old"⟩]⟩, [], false⟩) =
      ⟨⟨[], [⟨"f", "old"⟩, ⟨"f", "a"⟩, ⟨"f", "b"⟩, ⟨"g", "a"⟩]⟩,
        [Event.notify "f" "a" true, Event.logArticle "f" "a", Event.notify "f" "b" false,
          Event.notify "f" "b" true, Event.logArticle "f" "b",
          Event.logArticle "g" "a", Event.logArticle "g" "a"], false⟩ :=
  ⟨by decide,
    (ledger_at_most_once ⟨[("stdout", fun t _ _ => t.length != 2)]⟩ ⟨[], [⟨"f", "old"⟩]⟩
      (by decide)
      [Pass.steady ⟨"f", "u", "F", 60, "stdout"⟩ [⟨"old", "", ""⟩, ⟨"a", "", ""⟩, ⟨"b", "", ""⟩],
        Pass.steady ⟨"f", "u", "F", 60, "stdout"⟩ [⟨"a", "", ""⟩, ⟨"b", "", ""⟩],
        Pass.firstRun ⟨"g", "u", "G", 60, "stdout"⟩ [⟨"a", "", ""⟩, ⟨"a", "", ""⟩]]).2.2.1,
    by decide⟩

/-! ## Due-ness -/

theorem wrapInt64_of_inInt64 (x : Int) (h : inInt64 x) : wrapInt64 x = x := by
  unfold inInt64 at h
  unfold wrapInt64
  omega

/-- C4, as stated, fails: a feed with poll interval 153722867280912931 minutes
(not negative, so `Validate` accepts it), metadata with cache lifetime 0 checked
at 1700000000, and the time 1700000060. The interval in seconds,
9223372036854775860, does not fit 64 bits and wraps to a negative number:
`shouldFetchFeed` answers true although 60 seconds is less than the
interval and less than the maximum of cache lifetime and interval. -/
theorem shouldFetchFeed_counterexample :
    shouldFetchFeed ⟨"f", "u", "F", 153722867280912931, "stdout"⟩
      (some ⟨"f", "", "", 0, 1700000000⟩) 1700000060 = true ∧
    ¬ ((1700000060 : Int) - 1700000000 ≥ 153722867280912931 * 60) ∧
    ¬ ((1700000060 : Int) - 1700000000 ≥ max 0 (153722867280912931 * 60)) := by
  refine ⟨?_, ?_, ?_⟩
  · decide
  · norm_num
  · norm_num

theorem shouldFetchFeed_some (feed : config.Feed) (md : db.Feed) (now : Int)
    (hsum : inInt64 (md.LastChecked + md.MaxAge))
    (hdiff : inInt64 (now - md.LastChecked))
    (hint : inInt64 (feed.Interval * 60)) :
    shouldFetchFeed feed (some md) now = true ↔
      ¬ (md.MaxAge > 0 ∧ now < md.LastChecked + md.MaxAge) ∧
      now - md.LastChecked ≥ feed.Interval * 60 := by
  simp only [shouldFetchFeed, wrapInt64_of_inInt64 _ hsum, wrapInt64_of_inInt64 _ hdiff,
    wrapInt64_of_inInt64 _ hint]
  split_ifs with h1 h2
  · simp [h1]
  · simp only [Bool.false_eq_true, false_iff, not_and]
    intro _
    omega
  · simp only [true_iff]
    exact ⟨h1, by omega⟩

/-- C4, amended: whenever the three 64-bit computations of `shouldFetchFeed` do
not wrap around (`last_checked + cache_lifetime`, `now - last_checked` and
`interval_minutes * 60` are signed 64-bit values), it returns true exactly
when metadata is absent, or when both (a) it is not the case that
cache_lifetime > 0 and now < last_checked + cache_lifetime, and (b)
now - last_checked >= interval_minutes * 60; for stored metadata with
cache_lifetime >= 0 and a feed with interval_minutes >= 0 the feed is due iff
now - last_checked >= max(cache_lifetime, interval_minutes * 60). With
cache_lifetime = 3600 and last_checked = T it is not due at T + 1800 for any
interval, and is due at T + 3700 whenever interval_minutes * 60 <= 3700. -/
theorem shouldFetchFeed_due_iff (feed : config.Feed) (md : db.Feed) (now : Int)
    (hsum : inInt64 (md.LastChecked + md.MaxAge))
    (hdiff : inInt64 (now - md.LastChecked)) :
    shouldFetchFeed feed none now = true ∧
    (inInt64 (feed.Interval * 60) →
      (shouldFetchFeed feed (some md) now = true ↔
        ¬ (md.MaxAge > 0 ∧ now < md.LastChecked + md.MaxAge) ∧
        now - md.LastChecked ≥ feed.Interval * 60)) ∧
    (inInt64 (feed.Interval * 60) → 0 ≤ md.MaxAge → 0 ≤ feed.Interval →
      (shouldFetchFeed feed (some md) now = true ↔
        now - md.LastChecked ≥ max md.MaxAge (feed.Interval * 60))) ∧
    (md.MaxAge = 3600 → now = md.LastChecked + 1800 →
      shouldFetchFeed feed (some md) now = false) ∧
    (inInt64 (feed.Interval * 60) → md.MaxAge = 3600 → now = md.LastChecked + 3700 →
      feed.Interval * 60 ≤ 3700 → shouldFetchFeed feed (some md) now = true) := by
  refine ⟨rfl, ?_, ?_, ?_, ?_⟩
  · intro hint
    exact shouldFetchFeed_some feed md now hsum hdiff hint
  · intro hint hcl hiv
    rw [shouldFetchFeed_some feed md now hsum hdiff hint, ge_iff_le, ge_iff_le, max_le_iff]
    constructor
    · rintro ⟨h1, h2⟩
      refine ⟨?_, h2⟩
      by_contra hlt
      apply h1
      constructor <;> omega
    · rintro ⟨h1, h2⟩
      refine ⟨?_, h2⟩
      rintro ⟨_, h4⟩
      omega
  · intro hcl hnow
    simp only [shouldFetchFeed, wrapInt64_of_inInt64 _ hsum]
    rw [if_pos ⟨by omega, by omega⟩]
  · intro hint hcl hnow hle
    rw [shouldFetchFeed_some feed md now hsum hdiff hint]
    refine ⟨?_, by omega⟩
    rintro ⟨_, h4⟩
    omega

theorem shouldFetchFeed_due_iff_witness :
    inInt64 ((1700000000 : Int) + 3600) ∧ inInt64 ((1700003700 : Int) - 1700000000) ∧
    shouldFetchFeed ⟨"f", "u", "F", 60, "stdout"⟩ (some ⟨"f", "", "", 3600, 1700000000⟩)
      1700003700 = true :=
  ⟨by norm_num [inInt64], by norm_num [inInt64],
    (shouldFetchFeed_due_iff ⟨"f", "u", "F", 60, "stdout"⟩ ⟨"f", "", "", 3600, 1700000000⟩
      1700003700 (by norm_num [inInt64]) (by norm_num [inInt64])).2.2.2.2
      (by norm_num [inInt64]) rfl (by norm_num) (by norm_num)⟩

/-! ## parseMaxAge: the first max-age directive decides -/

theorem parseMaxAgeLoop_eq (directives : List (List Char)) :
    parseMaxAgeLoop directives =
      match (directives.map stringsTrimSpace).find?
          (fun directive => stringsHasPrefix directive "max-age=".data) with
      | none => 0
      | some directive => maxAgeOfDirective directive := by
  induction directives with
  | nil => rfl
  | cons d ds ih =>
    by_cases hp : stringsHasPrefix (stringsTrimSpace d) "max-age=".data = true
    · simp only [parseMaxAgeLoop, List.map_cons, List.find?, hp, if_true, maxAgeOfDirective]
    · rw [Bool.not_eq_true] at hp
      simp only [parseMaxAgeLoop, List.map_cons, List.find?, hp, Bool.false_eq_true, if_false]
      exact ih

theorem stringsSplit_ne_nil (sep : Char) (s : List Char) : stringsSplit sep s ≠ [] := by
  cases s with
  | nil => simp [stringsSplit]
  | cons x xs =>
    simp only [stringsSplit]
    split_ifs
    · simp
    · split <;> simp

theorem stringsSplit_of_not_mem (sep : Char) (s : List Char) (h : sep ∉ s) :
    stringsSplit sep s = [s] := by
  induction s with
  | nil => rfl
  | cons x xs ih =>
    have hx : x ≠ sep := fun e => h (by simp [e])
    have hxs : sep ∉ xs := fun e => h (by simp [e])
    simp only [stringsSplit, hx, if_false, ih hxs]

theorem stringsSplit_length_of_mem (sep : Char) (s : List Char) (h : sep ∈ s) :
    2 ≤ (stringsSplit sep s).length := by
  induction s with
  | nil => simp at h
  | cons x xs ih =>
    simp only [stringsSplit]
    split_ifs with hx
    · have := stringsSplit_ne_nil sep xs
      cases hs : stringsSplit sep xs with
      | nil => exact absurd hs this
      | cons p ps => simp
    · have hxs : sep ∈ xs := by
        rcases List.mem_cons.mp h with e | e
        · exact absurd e.symm hx
        · exact e
      have := ih hxs
      cases hs : stringsSplit sep xs with
      | nil => rw [hs] at this; simp at this
      | cons p ps => rw [hs] at this; simpa using this

theorem stringsSplit_maxAge (v : List Char) :
    stringsSplit '=' ("max-age=".data ++ v) = "max-age".data :: stringsSplit '=' v := by
  have h : "max-age=".data ++ v = 'm' :: 'a' :: 'x' :: '-' :: 'a' :: 'g' :: 'e' :: '=' :: v := rfl
  rw [h]
  have hne := stringsSplit_ne_nil '=' v
  cases hs : stringsSplit '=' v with
  | nil => exact absurd hs hne
  | cons p ps =>
    simp [stringsSplit, hs]

theorem parseDigits_all_digits (acc : Nat) (s : List Char) (n : Nat)
    (h : parseDigits acc s = some n) : ∀ ch ∈ s, '0' ≤ ch ∧ ch ≤ '9' := by
  induction s generalizing acc with
  | nil => intro ch hch; simp at hch
  | cons x xs ih =>
    simp only [parseDigits] at h
    split_ifs at h with hx
    intro ch hch
    rcases List.mem_cons.mp hch with e | e
    · rw [e]; exact hx
    · exact ih _ h ch e

theorem strconvParseInt_chars (s : List Char) (v : Int) (h : strconvParseInt s = some v) :
    ∀ ch ∈ s, ch = '+' ∨ ch = '-' ∨ ('0' ≤ ch ∧ ch ≤ '9') := by
  cases s with
  | nil => simp [strconvParseInt] at h
  | cons x xs =>
    simp only [strconvParseInt] at h
    by_cases hsign : x = '+' ∨ x = '-'
    · rw [if_pos hsign] at h
      cases xs with
      | nil => simp at h
      | cons y ys =>
        simp only at h
        cases hd : parseDigits 0 (y :: ys) with
        | none => simp [hd] at h
        | some un =>
          intro ch hch
          rcases List.mem_cons.mp hch with e | e
          · rcases hsign with hs | hs
            · left; rw [e, hs]
            · right; left; rw [e, hs]
          · right; right
            exact parseDigits_all_digits 0 _ un hd ch e
    · rw [if_neg hsign] at h
      simp only at h
      cases hd : parseDigits 0 (x :: xs) with
      | none => simp [hd] at h
      | some un =>
        intro ch hch
        right; right
        exact parseDigits_all_digits 0 _ un hd ch hch

theorem strconvParseInt_of_mem_eq (s : List Char) (h : '=' ∈ s) : strconvParseInt s = none := by
  cases hp : strconvParseInt s with
  | none => rfl
  | some v =>
    exfalso
    rcases strconvParseInt_chars s v hp '=' h with e | e | e
    · exact absurd e (by decide)
    · exact absurd e (by decide)
    · exact absurd e (by decide)

theorem maxAgeOfDirective_eq (directive : List Char)
    (hp : stringsHasPrefix directive "max-age=".data = true) :
    maxAgeOfDirective directive =
      match strconvParseInt (directiveValue directive) with
      | some val => if val > 0 then val else 0
      | none => 0 := by
  unfold stringsHasPrefix at hp
  obtain ⟨v, hv⟩ := List.isPrefixOf_iff_prefix.mp hp
  subst hv
  have hdrop : directiveValue ("max-age=".data ++ v) = v := rfl
  rw [hdrop]
  unfold maxAgeOfDirective
  rw [stringsSplit_maxAge v]
  by_cases hmem : '=' ∈ v
  · have hlen := stringsSplit_length_of_mem '=' v hmem
    have hne : ¬ ("max-age".data :: stringsSplit '=' v).length = 2 := by
      simp only [List.length_cons]
      omega
    simp only [hne, if_false, strconvParseInt_of_mem_eq v hmem]
  · rw [stringsSplit_of_not_mem '=' v hmem]
    simp

theorem firstMaxAgeDirective_hasPrefix (h : String) (d : List Char)
    (hd : firstMaxAgeDirective h = some d) : stringsHasPrefix d "max-age=".data = true := by
  unfold firstMaxAgeDirective at hd
  have := List.find?_some hd
  simpa using this

theorem parseMaxAgeLoop_firstMaxAge (h : String) :
    parseMaxAgeLoop (stringsSplit ',' h.data) = firstMaxAge h := by
  rw [parseMaxAgeLoop_eq]
  unfold firstMaxAge
  cases hd : firstMaxAgeDirective h with
  | none =>
    unfold firstMaxAgeDirective at hd
    rw [hd]
  | some d =>
    have hp := firstMaxAgeDirective_hasPrefix h d hd
    unfold firstMaxAgeDirective at hd
    rw [hd]
    exact maxAgeOfDirective_eq d hp

theorem firstMaxAge_nonneg (h : String) : 0 ≤ firstMaxAge h := by
  rw [← parseMaxAgeLoop_firstMaxAge]
  exact parseMaxAgeLoop_nonneg _

theorem parseMaxAge_eq_min (h : String) (maximum : Int) (hmax : 0 ≤ maximum) :
    parseMaxAge h maximum = min (firstMaxAge h) maximum := by
  by_cases he : h = ""
  · subst he
    have h0 : firstMaxAge "" = 0 := by decide
    rw [h0, min_eq_left hmax]
    rfl
  · simp only [parseMaxAge, he, if_false, parseMaxAgeLoop_firstMaxAge]
    split_ifs with hgt
    · exact (min_eq_right (le_of_lt hgt)).symm
    · exact (min_eq_left (not_lt.mp hgt)).symm

theorem strconvParseInt_of_decimalValue (s : List Char) (n : Nat)
    (h : decimalValue s = some n) :
    strconvParseInt s = if n < 2 ^ 63 then some (n : Int) else none := by
  cases s with
  | nil => simp [decimalValue] at h
  | cons x xs =>
    simp only [decimalValue] at h
    have hx := parseDigits_all_digits 0 (x :: xs) n h x (by simp)
    have hplus : x ≠ '+' := by
      intro e; rw [e] at hx; exact absurd hx (by decide)
    have hminus : x ≠ '-' := by
      intro e; rw [e] at hx; exact absurd hx (by decide)
    simp only [strconvParseInt, hplus, hminus, or_self, if_false, h, decide_False,
      Bool.not_false, Bool.true_and, Bool.false_and, Bool.false_eq_true]
    split_ifs with h1 h2
    · simp only [decide_eq_true_eq] at h1
      omega
    · rfl
    · rfl
    · simp only [decide_eq_true_eq] at h1
      omega

/-- C6, as stated, fails: in the header `max-age=99999999999999999999` the
first (and only) max-age directive has the value 99999999999999999999, a
well-formed positive decimal integer, so the claim gives
min(99999999999999999999, 14400) = 14400; `strconv.ParseInt` rejects the value
as out of the 64-bit range and `parseMaxAge` returns 0. -/
theorem parseMaxAge_out_of_range_counterexample :
    firstMaxAgeDirective "max-age=99999999999999999999" =
      some "max-age=99999999999999999999".data ∧
    decimalValue (directiveValue "max-age=99999999999999999999".data) =
      some 99999999999999999999 ∧
    min (99999999999999999999 : Int) 14400 = 14400 ∧
    parseMaxAge "max-age=99999999999999999999" 14400 = 0 := by
  refine ⟨by decide, by decide, by norm_num, by decide⟩

/-- C6, amended: for every Cache-Control header and every maximum that is not
negative, `parseMaxAge` decides its result from the first max-age directive
only (the first comma-separated directive that, trimmed, begins with
"max-age="). If the value of that directive is accepted by
`strconv.ParseInt(value, 10, 64)` (an optional sign, then ASCII digits, the
number within the signed 64-bit range) and is positive, the result is
min(value, maximum); if the value is rejected (malformed, or out of the 64-bit
range), zero or negative, the result is 0, whatever directives follow; without
a max-age directive the result is 0. For a value that is a plain decimal
numeral n the result is min(n, maximum) when 0 < n < 2^63 and 0 otherwise. -/
theorem parseMaxAge_first_directive (h : String) (maximum : Int) (hmax : 0 ≤ maximum) :
    (firstMaxAgeDirective h = none → parseMaxAge h maximum = 0) ∧
    (∀ d : List Char, firstMaxAgeDirective h = some d →
      stringsHasPrefix d "max-age=".data = true ∧
      (∀ v : Int, strconvParseInt (directiveValue d) = some v → 0 < v →
        parseMaxAge h maximum = min v maximum) ∧
      (∀ v : Int, strconvParseInt (directiveValue d) = some v → v ≤ 0 →
        parseMaxAge h maximum = 0) ∧
      (strconvParseInt (directiveValue d) = none → parseMaxAge h maximum = 0) ∧
      (∀ n : Nat, decimalValue (directiveValue d) = some n →
        parseMaxAge h maximum = if 0 < n ∧ n < 2 ^ 63 then min (n : Int) maximum else 0)) := by
  rw [parseMaxAge_eq_min h maximum hmax]
  unfold firstMaxAge
  refine ⟨?_, ?_⟩
  · intro hnone
    rw [hnone]
    exact min_eq_left hmax
  · intro d hd
    rw [hd]
    refine ⟨firstMaxAgeDirective_hasPrefix h d hd, ?_, ?_, ?_, ?_⟩
    · intro v hv hpos
      simp only [hv]
      rw [if_pos hpos]
    · intro v hv hle
      simp only [hv]
      rw [if_neg (not_lt.mpr hle)]
      exact min_eq_left hmax
    · intro hnone
      simp only [hnone]
      exact min_eq_left hmax
    · intro n hn
      simp only [strconvParseInt_of_decimalValue _ n hn]
      by_cases hlt : n < 2 ^ 63
      · by_cases hpos : 0 < n
        · have hpos2 : (n : Int) > 0 := by exact_mod_cast hpos
          simp only [hlt, if_true, hpos2, hpos, and_self]
        · have hn0 : n = 0 := by omega
          subst hn0
          simp only [hlt, if_true]
          simp [hmax]
      · simp only [hlt, if_false, and_false]
        exact min_eq_left hmax

theorem parseMaxAge_first_directive_witness :
    (0 : Int) ≤ 14400 ∧
    firstMaxAgeDirective "no-cache, max-age=abc , max-age=60" = some "max-age=abc".data ∧
    parseMaxAge "no-cache, max-age=abc , max-age=60" 14400 = 0 :=
  ⟨by decide, by decide,
    ((parseMaxAge_first_directive "no-cache, max-age=abc , max-age=60" 14400 (by decide)).2
      "max-age=abc".data (by decide)).2.2.2.1 (by decide)⟩

/-! ## The conditional request -/

theorem fetchFeed_sent (http : HTTP) (feed : config.Feed) (md : db.Feed) :
    (fetchFeed http feed md).sent =
      if http.newRequest feed.URL = true then some (fetchRequest feed md) else none := by
  by_cases hreq : http.newRequest feed.URL = true
  · simp only [fetchFeed, hreq]
    cases hdo : http.Do (fetchRequest feed md) with
    | none => simp
    | some resp =>
      by_cases h3 : resp.StatusCode = 200 <;>
      by_cases h4 : resp.StatusCode = 304 <;>
      cases hb : resp.Body <;>
      simp_all
  · simp [fetchFeed, hreq]

/-- C11: for every stored metadata, the request `fetchFeed` hands to the HTTP
client is the feed URL with at most one conditional header: `If-None-Match`
with the stored entity tag when the entity tag is not empty (whether or not a
last-modified value is stored); otherwise `If-Modified-Since` with the stored
last-modified value when that is not empty; otherwise no header at all. -/
theorem fetchFeed_conditional_header (http : HTTP) (feed : config.Feed) (md : db.Feed) :
    (∀ req : Request, (fetchFeed http feed md).sent = some req → req = fetchRequest feed md) ∧
    (http.newRequest feed.URL = true →
      (fetchFeed http feed md).sent = some (fetchRequest feed md)) ∧
    (fetchRequest feed md).URL = feed.URL ∧
    (fetchRequest feed md).Header.length ≤ 1 ∧
    (md.ETag ≠ "" → (fetchRequest feed md).Header = [("If-None-Match", md.ETag)]) ∧
    (md.ETag = "" → md.LastModified ≠ "" →
      (fetchRequest feed md).Header = [("If-Modified-Since", md.LastModified)]) ∧
    (md.ETag = "" → md.LastModified = "" → (fetchRequest feed md).Header = []) := by
  refine ⟨?_, ?_, rfl, ?_, ?_, ?_, ?_⟩
  · intro req hreq
    rw [fetchFeed_sent] at hreq
    split_ifs at hreq
    exact (Option.some.inj hreq).symm
  · intro hreq
    rw [fetchFeed_sent, if_pos hreq]
  · unfold fetchRequest
    by_cases h1 : md.ETag = "" <;> by_cases h2 : md.LastModified = "" <;> simp [h1, h2]
  · intro h1
    simp [fetchRequest, h1]
  · intro h1 h2
    simp [fetchRequest, h1, h2]
  · intro h1 h2
    simp [fetchRequest, h1, h2]

theorem fetchFeed_conditional_header_witness :
    (fetchFeed ⟨fun _ => true, fun _ => none⟩ ⟨"f", "u", "F", 60, "stdout"⟩
        ⟨"f", "abc", "Mon, 01 Jan 2024 00:00:00 GMT", 0, 100⟩).sent =
      some (fetchRequest ⟨"f", "u", "F", 60, "stdout"⟩
        ⟨"f", "abc", "Mon, 01 Jan 2024 00:00:00 GMT", 0, 100⟩) ∧
    (fetchRequest ⟨"f", "u", "F", 60, "stdout"⟩
        ⟨"f", "abc", "Mon, 01 Jan 2024 00:00:00 GMT", 0, 100⟩).Header =
      [("If-None-Match", "abc")] :=
  ⟨(fetchFeed_conditional_header ⟨fun _ => true, fun _ => none⟩ ⟨"f", "u", "F", 60, "stdout"⟩
      ⟨"f", "abc", "Mon, 01 Jan 2024 00:00:00 GMT", 0, 100⟩).2.1 rfl,
    (fetchFeed_conditional_header ⟨fun _ => true, fun _ => none⟩ ⟨"f", "u", "F", 60, "stdout"⟩
      ⟨"f", "abc", "Mon, 01 Jan 2024 00:00:00 GMT", 0, 100⟩).2.2.2.2.1 (by decide)⟩

/-! ## Configuration defaults -/

/-- C14: evaluation of the code on the configuration of the claim, a single
feed with id, url and display name and everything else unspecified. `Load`
does not succeed: `Validate` runs before `setDefaults` and `validateFetch`
rejects the unspecified `fetch.interval` (0) with "fetch.interval cannot be
negative"; with `fetch.interval` given, `validateDefaultNotifier` rejects the
unspecified `default_notifier`. `setDefaults` alone, on the same
configuration, yields the values of the claim. -/
theorem Load_unspecified_rejected (expandEnv : String → String) (koanf : config.Koanf)
    (id url name : String) :
    config.Load expandEnv koanf
        (some ⟨"", false, ⟨0, 0⟩, [], "", [⟨id, url, name, 0, ""⟩]⟩) =
      Except.error config.ConfigError.fetchIntervalNegative ∧
    config.Load expandEnv koanf
        (some ⟨"", false, ⟨0, 60⟩, [], "", [⟨id, url, name, 0, ""⟩]⟩) =
      Except.error (config.ConfigError.defaultNotifierUnknown "") ∧
    (config.setDefaults expandEnv ⟨"", false, ⟨0, 0⟩, [], "", [⟨id, url, name, 0, ""⟩]⟩).Fetch =
      ⟨3, 60⟩ ∧
    (config.setDefaults expandEnv
      ⟨"", false, ⟨0, 0⟩, [], "", [⟨id, url, name, 0, ""⟩]⟩).DefaultNotifier = "stdout" ∧
    (config.setDefaults expandEnv ⟨"", false, ⟨0, 0⟩, [], "", [⟨id, url, name, 0, ""⟩]⟩).Feeds =
      [⟨id, url, name, 60, "stdout"⟩] := by
  refine ⟨rfl, rfl, rfl, rfl, rfl⟩

/-! ## Notifier resolution -/

theorem validateSettings_ok (koanf : config.Koanf) (n decoded : config.Notifier)
    (h : config.validateSettings koanf n = Except.ok decoded) :
    decoded.ID = n.ID ∧
    ∀ plugins : Plugins, ∃ inst, factoryCreate plugins decoded = Except.ok inst := by
  unfold config.validateSettings at h
  split_ifs at h with h0 h1 h3
  · cases hm : koanf.unmarshalMattermostWebhook n.RawSettings with
    | none => simp [hm] at h
    | some p =>
      obtain ⟨webhook, htmlToMarkdown⟩ := p
      rw [hm] at h
      simp only at h
      split_ifs at h with h2
      cases h
      refine ⟨rfl, fun plugins => ⟨plugins.mattermostWebhook webhook htmlToMarkdown, ?_⟩⟩
      simp only [factoryCreate, h1, if_true]
  · cases hp : koanf.unmarshalPushover n.RawSettings with
    | none => simp [hp] at h
    | some p =>
      obtain ⟨appToken, userKey⟩ := p
      rw [hp] at h
      simp only at h
      split_ifs at h with h4 h5
      cases h
      refine ⟨rfl, fun plugins => ⟨plugins.pushover appToken userKey, ?_⟩⟩
      simp only [factoryCreate, h1, if_false, h3, if_true]
      rw [if_neg (by decide)]

theorem validateNotifiersLoop_ok (koanf : config.Koanf) (ns : List config.Notifier)
    (ids ids1 : List String) (ns1 : List config.Notifier)
    (h : config.validateNotifiersLoop koanf ns ids = Except.ok (ids1, ns1)) :
    (∀ x, x ∈ ids1 ↔ x ∈ ns.map (fun n => n.ID) ∨ x ∈ ids) ∧
    ns1.map (fun n => n.ID) = ns.map (fun n => n.ID) ∧
    (∀ n ∈ ns1, ∀ plugins : Plugins, ∃ inst, factoryCreate plugins n = Except.ok inst) ∧
    (∀ n ∈ ns, n.ID ≠ "") := by
  induction ns generalizing ids ids1 ns1 with
  | nil =>
    simp only [config.validateNotifiersLoop, Except.ok.injEq, Prod.mk.injEq] at h
    obtain ⟨rfl, rfl⟩ := h
    simp
  | cons n rest ih =>
    simp only [config.validateNotifiersLoop] at h
    split_ifs at h with h1 h2 h3 h4
    cases hs : config.validateSettings koanf n with
    | error e => simp [hs] at h
    | ok decoded =>
      rw [hs] at h
      simp only at h
      cases hr : config.validateNotifiersLoop koanf rest (n.ID :: ids) with
      | error e => simp [hr] at h
      | ok p =>
        obtain ⟨ids2, others⟩ := p
        rw [hr] at h
        simp only [Except.ok.injEq, Prod.mk.injEq] at h
        obtain ⟨rfl, rfl⟩ := h
        obtain ⟨hmem, hmap, hcreate, hne⟩ := ih (n.ID :: ids) ids2 others hr
        obtain ⟨hid, hc⟩ := validateSettings_ok koanf n decoded hs
        refine ⟨?_, ?_, ?_, ?_⟩
        · intro x
          rw [hmem x]
          simp only [List.map_cons, List.mem_cons]
          tauto
        · simp [hmap, hid]
        · intro m hm
          rcases List.mem_cons.mp hm with rfl | hm
          · exact hc
          · exact hcreate m hm
        · intro m hm
          rcases List.mem_cons.mp hm with rfl | hm
          · exact h1
          · exact hne m hm

theorem validateFeedsLoop_ok (notifierIDs : List String) (feeds : List config.Feed)
    (feedIDs : List String) (h : config.validateFeedsLoop notifierIDs feeds feedIDs = none) :
    ∀ feed ∈ feeds, feed.Notifier = "" ∨ feed.Notifier ∈ notifierIDs := by
  induction feeds generalizing feedIDs with
  | nil => intro feed hf; simp at hf
  | cons f rest ih =>
    simp only [config.validateFeedsLoop] at h
    split_ifs at h with h1 h2 h3 h4 h5 h6
    intro feed hf
    rcases List.mem_cons.mp hf with rfl | hf
    · by_cases he : feed.Notifier = ""
      · exact Or.inl he
      · right
        by_contra hnot
        exact h6 ⟨he, by simpa using hnot⟩
    · exact ih _ h feed hf

theorem initNotifiersLoop_ok (plugins : Plugins) (ns : List config.Notifier)
    (m : List (String × Notifier))
    (hc : ∀ n ∈ ns, ∃ inst, factoryCreate plugins n = Except.ok inst) :
    ∃ m1, initNotifiersLoop plugins ns m = Except.ok m1 ∧
      ∀ k : String, (k ∈ ns.map (fun n => n.ID) ∨ (m.lookup k).isSome = true) →
        (m1.lookup k).isSome = true := by
  induction ns generalizing m with
  | nil => exact ⟨m, rfl, by intro k hk; simpa using hk⟩
  | cons n rest ih =>
    obtain ⟨inst, hinst⟩ := hc n (by simp)
    obtain ⟨m1, hm1, hkeys⟩ := ih ((n.ID, inst) :: m) (fun x hx => hc x (by simp [hx]))
    refine ⟨m1, by simp only [initNotifiersLoop, hinst, hm1], ?_⟩
    intro k hk
    apply hkeys
    by_cases hkn : k = n.ID
    · right
      simp [List.lookup, hkn]
    · rcases hk with hk | hk
      · left
        simpa [hkn] using hk
      · right
        have hb : (k == n.ID) = false := by simpa using hkn
        simp only [List.lookup, hb]
        exact hk

theorem processArticlesLoop_crashed (n : Notifier) (feed : config.Feed)
    (items : List gofeed.Item) (st : State) :
    (processArticlesLoop (some n) feed items st).crashed = st.crashed := by
  induction items generalizing st with
  | nil => rfl
  | cons x xs ih =>
    simp only [processArticlesLoop]
    split_ifs
    · exact ih st
    · rw [ih]
    · rw [ih]
    · exact ih st

theorem Validate_ok (koanf : config.Koanf) (c validated : config.Config)
    (hv : config.Validate koanf c = Except.ok validated) :
    ∃ ids ns1,
      config.validateNotifiersLoop koanf c.Notifiers ["stdout"] = Except.ok (ids, ns1) ∧
      c.DefaultNotifier ∈ ids ∧
      (∀ feed ∈ c.Feeds, feed.Notifier = "" ∨ feed.Notifier ∈ ids) ∧
      validated = { c with Notifiers := ns1 } := by
  unfold config.Validate at hv
  cases hf : config.validateFetch c with
  | some e => simp [hf] at hv
  | none =>
    rw [hf] at hv
    simp only at hv
    cases hn : config.validateNotifiers koanf c with
    | error e => simp [hn] at hv
    | ok p =>
      obtain ⟨ids, ns1⟩ := p
      rw [hn] at hv
      simp only at hv
      cases hd : config.validateDefaultNotifier c ids with
      | some e => simp [hd] at hv
      | none =>
        rw [hd] at hv
        simp only at hv
        cases hfe : config.validateFeeds c ids with
        | some e => simp [hfe] at hv
        | none =>
          rw [hfe] at hv
          simp only [Except.ok.injEq] at hv
          refine ⟨ids, ns1, hn, ?_, ?_, hv.symm⟩
          · unfold config.validateDefaultNotifier at hd
            split_ifs at hd with hc
            simpa using hc
          · exact validateFeedsLoop_ok ids c.Feeds [] hfe

theorem mem_ids_iff (koanf : config.Koanf) (c : config.Config) (ids : List String)
    (ns1 : List config.Notifier)
    (hn : config.validateNotifiersLoop koanf c.Notifiers ["stdout"] = Except.ok (ids, ns1))
    (x : String) : x ∈ ids ↔ x = "stdout" ∨ x ∈ c.Notifiers.map (fun n => n.ID) := by
  rw [(validateNotifiersLoop_ok koanf c.Notifiers ["stdout"] ids ns1 hn).1 x]
  simp only [List.mem_singleton]
  tauto

/-- C15: for every configuration that `Validate` accepts, whatever the
decoding of the settings maps does, `New` (with `initNotifiers`) succeeds on the configuration after `setDefaults`, and for
every configured feed the notifier identifier is "stdout" or the id of a
configured notifier and is a key of the notifier map: `getNotifierForFeed`
returns a notifier, never nil, and `processArticles` never dies on a nil
notifier. A configuration in which a feed names a notifier that is neither
"stdout" nor configured, or in which the default notifier is neither, is
rejected by `Validate`. -/
theorem validated_notifier_resolves (plugins : Plugins) (expandEnv : String → String)
    (koanf : config.Koanf) (c validated : config.Config)
    (hv : config.Validate koanf c = Except.ok validated) :
    (∃ s : Service, New plugins (config.setDefaults expandEnv validated) = Except.ok s ∧
      ∀ feed ∈ (config.setDefaults expandEnv validated).Feeds,
        (feed.Notifier = "stdout" ∨ feed.Notifier ∈ c.Notifiers.map (fun n => n.ID)) ∧
        (∃ n, getNotifierForFeed s feed = some n) ∧
        (∀ (items : List gofeed.Item) (st : State),
          (processArticles s feed items st).2.crashed = st.crashed)) ∧
    (∀ bad : config.Config,
      ((∃ feed ∈ bad.Feeds, feed.Notifier ≠ "" ∧ feed.Notifier ≠ "stdout" ∧
          feed.Notifier ∉ bad.Notifiers.map (fun n => n.ID)) ∨
        (bad.DefaultNotifier ≠ "stdout" ∧
          bad.DefaultNotifier ∉ bad.Notifiers.map (fun n => n.ID))) →
      ∃ e, config.Validate koanf bad = Except.error e) := by
  constructor
  · obtain ⟨ids, ns1, hn, hdef, hfeeds, rfl⟩ := Validate_ok koanf c validated hv
    obtain ⟨-, hmap, hcreate, -⟩ := validateNotifiersLoop_ok koanf c.Notifiers ["stdout"] ids ns1 hn
    obtain ⟨m1, hm1, hkeys⟩ := initNotifiersLoop_ok plugins ns1 [("stdout", plugins.stdout)]
      (fun n hn1 => hcreate n hn1 plugins)
    refine ⟨⟨m1⟩, ?_, ?_⟩
    · simp only [New, initNotifiers, config.setDefaults, hm1]
    · intro feed hfeed
      simp only [config.setDefaults, List.mem_map] at hfeed
      obtain ⟨f, hf, rfl⟩ := hfeed
      have hkey : (if f.Notifier = "" then
            (if c.DefaultNotifier = "" then "stdout" else c.DefaultNotifier)
          else f.Notifier) = "stdout" ∨
          (if f.Notifier = "" then
            (if c.DefaultNotifier = "" then "stdout" else c.DefaultNotifier)
          else f.Notifier) ∈ c.Notifiers.map (fun n => n.ID) := by
        by_cases he : f.Notifier = ""
        · rw [if_pos he]
          by_cases hd : c.DefaultNotifier = ""
          · rw [if_pos hd]; exact Or.inl rfl
          · rw [if_neg hd]
            exact (mem_ids_iff koanf c ids ns1 hn _).mp hdef
        · rw [if_neg he]
          rcases hfeeds f hf with h0 | h0
          · exact absurd h0 he
          · exact (mem_ids_iff koanf c ids ns1 hn _).mp h0
      have hsome : (m1.lookup (if f.Notifier = "" then
            (if c.DefaultNotifier = "" then "stdout" else c.DefaultNotifier)
          else f.Notifier)).isSome = true := by
        apply hkeys
        rcases hkey with h0 | h0
        · right
          rw [h0]
          rfl
        · left
          rw [hmap]
          exact h0
      obtain ⟨n, hn2⟩ := Option.isSome_iff_exists.mp hsome
      refine ⟨hkey, ⟨n, hn2⟩, ?_⟩
      intro items st
      have hg : getNotifierForFeed ⟨m1⟩
          { f with
            Interval := if f.Interval = 0 then
              (if c.Fetch.Interval = 0 then 60 else c.Fetch.Interval) else f.Interval
            Notifier := if f.Notifier = "" then
              (if c.DefaultNotifier = "" then "stdout" else c.DefaultNotifier)
              else f.Notifier } = some n := hn2
      simp only [processArticles, hg]
      exact processArticlesLoop_crashed n _ items st
  · intro bad hbad
    cases hvb : config.Validate koanf bad with
    | error e => exact ⟨e, rfl⟩
    | ok v =>
      exfalso
      obtain ⟨ids, ns1, hn, hdef, hfeeds, -⟩ := Validate_ok koanf bad v hvb
      rcases hbad with ⟨feed, hf, h1, h2, h3⟩ | ⟨h2, h3⟩
      · rcases hfeeds feed hf with h0 | h0
        · exact h1 h0
        · rcases (mem_ids_iff koanf bad ids ns1 hn _).mp h0 with h4 | h4
          · exact h2 h4
          · exact h3 h4
      · rcases (mem_ids_iff koanf bad ids ns1 hn _).mp hdef with h4 | h4
        · exact h2 h4
        · exact h3 h4

theorem validated_notifier_resolves_witness :
    config.Validate ⟨fun _ => true, fun _ => some ("w", false), fun _ => none⟩
      ⟨"", false, ⟨2, 30⟩,
        [⟨"mm", "mattermost_webhook", [("Webhook", config.RawValue.text "w")], none⟩], "mm",
        [⟨"f", "u", "F", 0, ""⟩, ⟨"g", "v", "G", 5, "stdout"⟩]⟩ =
      Except.ok
      ⟨"", false, ⟨2, 30⟩,
        [⟨"mm", "mattermost_webhook", [("Webhook", config.RawValue.text "w")],
          some (config.NotifierSettings.mattermostWebhook "w" false)⟩], "mm",
        [⟨"f", "u", "F", 0, ""⟩, ⟨"g", "v", "G", 5, "stdout"⟩]⟩ ∧
    ∃ s : Service,
      New ⟨fun _ _ _ => true, fun _ _ _ _ _ => true, fun _ _ _ _ _ => false⟩
        (config.setDefaults (fun x => x)
      ⟨"", false, ⟨2, 30⟩,
        [⟨"mm", "mattermost_webhook", [("Webhook", config.RawValue.text "w")],
          some (config.NotifierSettings.mattermostWebhook "w" false)⟩], "mm",
        [⟨"f", "u", "F", 0, ""⟩, ⟨"g", "v", "G", 5, "stdout"⟩]⟩) = Except.ok s ∧
      ∀ feed ∈ (config.setDefaults (fun x => x)
      ⟨"", false, ⟨2, 30⟩,
        [⟨"mm", "mattermost_webhook", [("Webhook", config.RawValue.text "w")],
          some (config.NotifierSettings.mattermostWebhook "w" false)⟩], "mm",
        [⟨"f", "u", "F", 0, ""⟩, ⟨"g", "v", "G", 5, "stdout"⟩]⟩).Feeds,
        (feed.Notifier = "stdout" ∨
          feed.Notifier ∈ (
      ⟨"", false, ⟨2, 30⟩,
        [⟨"mm", "mattermost_webhook", [("Webhook", config.RawValue.text "w")], none⟩], "mm",
        [⟨"f", "u", "F", 0, ""⟩, ⟨"g", "v", "G", 5, "stdout"⟩]⟩ : config.Config).Notifiers.map (fun n => n.ID)) ∧
        (∃ n, getNotifierForFeed s feed = some n) ∧
        (∀ (items : List gofeed.Item) (st : State),
          (processArticles s feed items st).2.crashed = st.crashed) :=
  ⟨rfl,
    (validated_notifier_resolves
      ⟨fun _ _ _ => true, fun _ _ _ _ _ => true, fun _ _ _ _ _ => false⟩ (fun x => x)
      ⟨fun _ => true, fun _ => some ("w", false), fun _ => none⟩
      ⟨"", false, ⟨2, 30⟩,
        [⟨"mm", "mattermost_webhook", [("Webhook", config.RawValue.text "w")], none⟩], "mm",
        [⟨"f", "u", "F", 0, ""⟩, ⟨"g", "v", "G", 5, "stdout"⟩]⟩
      ⟨"", false, ⟨2, 30⟩,
        [⟨"mm", "mattermost_webhook", [("Webhook", config.RawValue.text "w")],
          some (config.NotifierSettings.mattermostWebhook "w" false)⟩], "mm",
        [⟨"f", "u", "F", 0, ""⟩, ⟨"g", "v", "G", 5, "stdout"⟩]⟩ rfl).1⟩

/-! ## The concurrency cap -/

theorem schedStep_inv (jobs : Nat) (feeds : List config.Feed) (a : Action) (s next : Sched)
    (hinv : SlotsInv jobs s) (h : schedStep jobs feeds a s = some next) :
    SlotsInv jobs next := by
  obtain ⟨hsem, hle⟩ := hinv
  simp only [Workers.holding] at hsem
  cases a with
  | cancel =>
    simp only [schedStep, Option.some.injEq] at h
    subst h
    exact ⟨by simpa [Workers.holding] using hsem, hle⟩
  | tick =>
    simp only [schedStep] at h
    split at h
    · simp only [Option.some.injEq] at h
      subst h
      exact ⟨by simpa [Workers.holding] using hsem, hle⟩
    · exact absurd h (by simp)
  | exitStart =>
    simp only [schedStep] at h
    split at h
    · split_ifs at h
      simp only [Option.some.injEq] at h
      subst h
      exact ⟨by simpa [Workers.holding] using hsem, hle⟩
    · exact absurd h (by simp)
  | seeCancelled =>
    simp only [schedStep] at h
    split at h
    · split_ifs at h
      simp only [Option.some.injEq] at h
      subst h
      refine ⟨?_, hle⟩
      simp only [Sched.abandon, Workers.add, Workers.holding]
      omega
    · exact absurd h (by simp)
  | notDue =>
    simp only [schedStep] at h
    split at h
    · split_ifs at h
      simp only [Option.some.injEq] at h
      subst h
      exact ⟨by simpa [Workers.holding] using hsem, hle⟩
    · exact absurd h (by simp)
  | due =>
    simp only [schedStep] at h
    split at h
    · split_ifs at h
      simp only [Option.some.injEq] at h
      subst h
      exact ⟨by simpa [Workers.holding] using hsem, hle⟩
    · exact absurd h (by simp)
  | acquire =>
    simp only [schedStep] at h
    split at h
    · split_ifs at h with hfree
      simp only [Option.some.injEq] at h
      subst h
      refine ⟨?_, ?_⟩
      · simp only [Workers.holding]
        omega
      · exact hfree
    · exact absurd h (by simp)
  | giveUp =>
    simp only [schedStep] at h
    split at h
    · split_ifs at h
      simp only [Option.some.injEq] at h
      subst h
      refine ⟨?_, hle⟩
      simp only [Sched.abandon, Workers.add, Workers.holding]
      omega
    · exact absurd h (by simp)
  | endLoop =>
    simp only [schedStep] at h
    split at h
    · simp only [Option.some.injEq] at h
      subst h
      exact ⟨by simpa [Workers.holding] using hsem, hle⟩
    · exact absurd h (by simp)
  | waitDone =>
    simp only [schedStep] at h
    split at h
    · split_ifs at h
      simp only [Option.some.injEq] at h
      subst h
      exact ⟨by simpa [Workers.holding] using hsem, hle⟩
    · exact absurd h (by simp)
  | workerStart orphan =>
    simp only [schedStep] at h
    split_ifs at h with h0
    simp only [Option.some.injEq] at h
    subst h
    cases orphan <;>
      simp only [Sched.group, Sched.setGroup, Bool.false_eq_true, if_false, if_true] at h0 ⊢ <;>
      exact ⟨by simp only [Workers.holding]; omega, hle⟩
  | workerFetched orphan =>
    simp only [schedStep] at h
    split_ifs at h with h0
    simp only [Option.some.injEq] at h
    subst h
    cases orphan <;>
      simp only [Sched.group, Sched.setGroup, Bool.false_eq_true, if_false, if_true] at h0 ⊢ <;>
      exact ⟨by simp only [Workers.holding]; omega, hle⟩
  | workerRelease orphan =>
    simp only [schedStep] at h
    split_ifs at h with h0
    simp only [Option.some.injEq] at h
    subst h
    cases orphan <;>
      simp only [Sched.group, Sched.setGroup, Bool.false_eq_true, if_false, if_true] at h0 ⊢ <;>
      exact ⟨by simp only [Workers.holding]; omega, by simp only; omega⟩
  | workerDone orphan =>
    simp only [schedStep] at h
    split_ifs at h with h0
    simp only [Option.some.injEq] at h
    subst h
    cases orphan <;>
      simp only [Sched.group, Sched.setGroup, Bool.false_eq_true, if_false, if_true] at h0 ⊢ <;>
      exact ⟨by simp only [Workers.holding]; omega, hle⟩

theorem schedRun_inv (jobs : Nat) (feeds : List config.Feed) (actions : List Action)
    (s final : Sched) (hinv : SlotsInv jobs s)
    (h : schedRun jobs feeds actions s = some final) : SlotsInv jobs final := by
  induction actions generalizing s with
  | nil =>
    simp only [schedRun, Option.some.injEq] at h
    subst h
    exact hinv
  | cons a rest ih =>
    simp only [schedRun] at h
    cases hs : schedStep jobs feeds a s with
    | none => simp [hs] at h
    | some next =>
      rw [hs] at h
      exact ih next (schedStep_inv jobs feeds a s next hinv hs) h

theorem schedStart_inv (jobs : Nat) (feeds : List config.Feed) :
    SlotsInv jobs (schedStart feeds) :=
  ⟨rfl, Nat.zero_le jobs⟩

/-- C13: for every job count, every feed list and every interleaving of the
scheduler, `Stop` and the feed workers, at no instant are more than `jobs`
workers inside `processFeed`: the semaphore holds exactly the slots of the
workers that were started and have not yet given their slot back, and never
more than `jobs`; a worker is started only by a send on the semaphore that
finds a free slot, and a slot is given back only by a worker whose
`processFeed` has returned. -/
theorem fetches_bounded (jobs : Nat) (feeds : List config.Feed) (actions : List Action)
    (final : Sched) (h : schedRun jobs feeds actions (schedStart feeds) = some final) :
    final.current.fetching + final.orphaned.fetching ≤ jobs ∧
    final.semaphore ≤ jobs ∧
    final.semaphore = final.current.holding + final.orphaned.holding ∧
    (∀ next, schedStep jobs feeds Action.acquire final = some next →
      final.semaphore < jobs ∧ next.semaphore = final.semaphore + 1 ∧
      next.current.spawned = final.current.spawned + 1) ∧
    (∀ orphan next, schedStep jobs feeds (Action.workerRelease orphan) final = some next →
      0 < (final.group orphan).releasing ∧ next.semaphore + 1 = final.semaphore) := by
  obtain ⟨hsem, hle⟩ := schedRun_inv jobs feeds actions _ final (schedStart_inv jobs feeds) h
  refine ⟨?_, hle, hsem, ?_, ?_⟩
  · simp only [Workers.holding] at hsem
    omega
  · intro next hstep
    simp only [schedStep] at hstep
    split at hstep
    · split_ifs at hstep with hfree
      simp only [Option.some.injEq] at hstep
      subst hstep
      exact ⟨hfree, rfl, rfl⟩
    · exact absurd hstep (by simp)
  · intro orphan next hstep
    simp only [schedStep] at hstep
    split_ifs at hstep with h0
    simp only [Option.some.injEq] at hstep
    subst hstep
    cases orphan <;>
      simp only [Sched.group, Sched.setGroup, Bool.false_eq_true, if_false, if_true] at h0 ⊢ <;>
      exact ⟨by omega, by show _ - 1 + 1 = _; omega⟩

theorem fetches_bounded_witness :
    schedRun 2
      [⟨"f1", "u1", "F1", 60, "stdout"⟩, ⟨"f2", "u2", "F2", 60, "stdout"⟩,
        ⟨"f3", "u3", "F3", 60, "stdout"⟩, ⟨"f4", "u4", "F4", 60, "stdout"⟩,
        ⟨"f5", "u5", "F5", 60, "stdout"⟩]
      [Action.due, Action.acquire, Action.workerStart false, Action.due, Action.acquire,
        Action.workerStart false, Action.due]
      (schedStart
      [⟨"f1", "u1", "F1", 60, "stdout"⟩, ⟨"f2", "u2", "F2", 60, "stdout"⟩,
        ⟨"f3", "u3", "F3", 60, "stdout"⟩, ⟨"f4", "u4", "F4", 60, "stdout"⟩,
        ⟨"f5", "u5", "F5", 60, "stdout"⟩]) =
      some
      ⟨Phase.acquiring ⟨"f3", "u3", "F3", 60, "stdout"⟩
        [⟨"f4", "u4", "F4", 60, "stdout"⟩, ⟨"f5", "u5", "F5", 60, "stdout"⟩],
        false, 2, ⟨0, 2, 0, 0⟩, ⟨0, 0, 0, 0⟩⟩ ∧
    schedStep 2
      [⟨"f1", "u1", "F1", 60, "stdout"⟩, ⟨"f2", "u2", "F2", 60, "stdout"⟩,
        ⟨"f3", "u3", "F3", 60, "stdout"⟩, ⟨"f4", "u4", "F4", 60, "stdout"⟩,
        ⟨"f5", "u5", "F5", 60, "stdout"⟩]
      Action.acquire
      ⟨Phase.acquiring ⟨"f3", "u3", "F3", 60, "stdout"⟩
        [⟨"f4", "u4", "F4", 60, "stdout"⟩, ⟨"f5", "u5", "F5", 60, "stdout"⟩],
        false, 2, ⟨0, 2, 0, 0⟩, ⟨0, 0, 0, 0⟩⟩ = none ∧
    ((⟨Phase.acquiring ⟨"f3", "u3", "F3", 60, "stdout"⟩
        [⟨"f4", "u4", "F4", 60, "stdout"⟩, ⟨"f5", "u5", "F5", 60, "stdout"⟩],
        false, 2, ⟨0, 2, 0, 0⟩, ⟨0, 0, 0, 0⟩⟩ : Sched).current.fetching +
      (⟨Phase.acquiring ⟨"f3", "u3", "F3", 60, "stdout"⟩
        [⟨"f4", "u4", "F4", 60, "stdout"⟩, ⟨"f5", "u5", "F5", 60, "stdout"⟩],
        false, 2, ⟨0, 2, 0, 0⟩, ⟨0, 0, 0, 0⟩⟩ : Sched).orphaned.fetching ≤ 2) :=
  ⟨by decide, by decide,
    (fetches_bounded 2
      [⟨"f1", "u1", "F1", 60, "stdout"⟩, ⟨"f2", "u2", "F2", 60, "stdout"⟩,
        ⟨"f3", "u3", "F3", 60, "stdout"⟩, ⟨"f4", "u4", "F4", 60, "stdout"⟩,
        ⟨"f5", "u5", "F5", 60, "stdout"⟩]
      [Action.due, Action.acquire, Action.workerStart false, Action.due, Action.acquire,
        Action.workerStart false, Action.due]
      ⟨Phase.acquiring ⟨"f3", "u3", "F3", 60, "stdout"⟩
        [⟨"f4", "u4", "F4", 60, "stdout"⟩, ⟨"f5", "u5", "F5", 60, "stdout"⟩],
        false, 2, ⟨0, 2, 0, 0⟩, ⟨0, 0, 0, 0⟩⟩ (by decide)).1⟩

/-- C12: evaluation of the code on two interleavings, with one job and two due
feeds. In the first, `Stop` cancels the context while the worker of the first
feed is inside `processFeed` and `processAllFeeds` waits for a slot for the
second feed: `processAllFeeds` returns through lines 128 to 130 without
`wg.Wait()`, the goroutine of `Start` returns, so `Stop` returns, and the
worker is still inside `processFeed`. In the second, the context is cancelled
before the loop comes to the second feed and `processAllFeeds` returns through
lines 111 to 113, the worker still running. The regular exit through
`wg.Wait()` is taken only when no worker of the call is left. -/
theorem stop_returns_while_worker_runs :
    schedRun 1 [⟨"f1", "u1", "F1", 60, "stdout"⟩, ⟨"f2", "u2", "F2", 60, "stdout"⟩]
      [Action.due, Action.acquire, Action.workerStart false, Action.due, Action.cancel,
        Action.giveUp, Action.exitStart]
      (schedStart [⟨"f1", "u1", "F1", 60, "stdout"⟩, ⟨"f2", "u2", "F2", 60, "stdout"⟩]) =
      some ⟨Phase.exited, true, 1, ⟨0, 0, 0, 0⟩, ⟨0, 1, 0, 0⟩⟩ ∧
    schedRun 1 [⟨"f1", "u1", "F1", 60, "stdout"⟩, ⟨"f2", "u2", "F2", 60, "stdout"⟩]
      [Action.due, Action.acquire, Action.workerStart false, Action.cancel,
        Action.seeCancelled]
      (schedStart [⟨"f1", "u1", "F1", 60, "stdout"⟩, ⟨"f2", "u2", "F2", 60, "stdout"⟩]) =
      some ⟨Phase.idle, true, 1, ⟨0, 0, 0, 0⟩, ⟨0, 1, 0, 0⟩⟩ ∧
    (∀ (jobs : Nat) (feeds : List config.Feed) (s next : Sched),
      schedStep jobs feeds Action.waitDone s = some next →
        next.phase = Phase.idle ∧ next.current.total = 0) := by
  refine ⟨by decide, by decide, ?_⟩
  intro jobs feeds s next hstep
  simp only [schedStep] at hstep
  split at hstep
  · split_ifs at hstep with h0
    simp only [Option.some.injEq] at hstep
    subst hstep
    exact ⟨rfl, h0⟩
  · exact absurd hstep (by simp)

end service
